import Mathlib

/-!
Shallow embedding of the foodgram backend core (recipe composer, shopping-list
aggregator, favorite/cart/subscription toggles) and proofs about it.

The database state is modelled as lists of rows; Django ORM operations on the
cited views/serializers are translated into pure functions on that state.
-/

namespace Foodgram

/-- Catalog row of the `Ingredient` model (recipes/models.py): `id`, `name`,
`measurement_unit`. -/
structure Ingredient where
  id : Nat
  name : String
  measurement_unit : String
deriving DecidableEq, Repr

/-- Row of the `Recipe` model: the fields the core logic reads
(`id`, `author`, `name`, `text`, `cooking_time`). -/
structure Recipe where
  id : Nat
  author : Nat
  name : String
  text : String
  cooking_time : Int
deriving DecidableEq, Repr

/-- Row of the `RecipeIngredients` join model: `(recipe, ingredient, amount)`. -/
structure RecipeIngredientRow where
  recipe : Nat
  ingredient : Nat
  amount : Int
deriving DecidableEq, Repr

/-- The relational store: one list of rows per table read or written by the
core operations.  Join tables hold `(user, target)` pairs. -/
structure State where
  users : List Nat
  tags : List Nat
  ingredients : List Ingredient
  recipes : List Recipe
  recipeTags : List (Nat × Nat)
  recipeIngredients : List RecipeIngredientRow
  favorites : List (Nat × Nat)
  shoppingCart : List (Nat × Nat)
  subscriptions : List (Nat × Nat)
deriving DecidableEq, Repr

/-- The empty database. -/
def initState : State :=
  { users := [], tags := [], ingredients := [], recipes := [], recipeTags := []
  , recipeIngredients := [], favorites := [], shoppingCart := []
  , subscriptions := [] }

/-! ## Shopping list aggregator (api/views.py, download_shopping_cart and
create_ingredient_list) -/

/-- One row of the queryset
`RecipeIngredients.objects.filter(recipe__shopping_cart__user=user)
.values('ingredient__name', 'ingredient__measurement_unit', 'amount')`. -/
structure IngredientRow where
  name : String
  unit : String
  amount : Int
deriving DecidableEq, Repr

/-- The dict key built by `create_ingredient_list`:
`f'\x7bingredient_name\x7d (\x7bmeasurement_unit\x7d)'`. -/
def labelOf (r : IngredientRow) : String := r.name ++ " (" ++ r.unit ++ ")"

/-- The rows of the queryset before `order_by`: every `RecipeIngredients` row
whose recipe appears in the user's shopping cart, joined with the ingredient
catalog.  Assumes the `(user, recipe)` unique constraint on `ShoppingCart`,
so each matching row contributes once. -/
def cartRowsUnsorted (s : State) (u : Nat) : List IngredientRow :=
  s.recipeIngredients.filterMap fun ri =>
    if (u, ri.recipe) ∈ s.shoppingCart then
      (s.ingredients.find? fun i => i.id == ri.ingredient).map fun i =>
        ⟨i.name, i.measurement_unit, ri.amount⟩
    else none

/-- Lexicographic `≤` on code-point lists (the order SQL/Python use for
strings, computable by the kernel). -/
def leChars : List Char → List Char → Bool
  | [], _ => true
  | _ :: _, [] => false
  | a :: as, b :: bs =>
    if a.toNat < b.toNat then true
    else if b.toNat < a.toNat then false
    else leChars as bs

/-- Lexicographic `≤` on strings by code points. -/
def strLe (a b : String) : Bool := leChars a.data b.data

/-- Insert a row into a name-sorted list (helper for `orderByName`). -/
def insertByName (r : IngredientRow) : List IngredientRow → List IngredientRow
  | [] => [r]
  | x :: xs => if strLe r.name x.name then r :: x :: xs else x :: insertByName r xs

/-- `order_by('ingredient__name')`: a stable insertion sort on the ingredient
name (SQL leaves the order among equal names unspecified; this picks one). -/
def orderByName : List IngredientRow → List IngredientRow
  | [] => []
  | r :: rs => insertByName r (orderByName rs)

/-- The queryset fed to `create_ingredient_list`, in `order_by` order. -/
def cartRows (s : State) (u : Nat) : List IngredientRow :=
  orderByName (cartRowsUnsorted s u)

/-- One iteration of the `for ingredient in queryset` loop updating the
`defaultdict(int)`: Python dicts keep keys in insertion order, so the dict is
an association list; an existing key is updated in place, a new key is
appended with its initial amount. -/
def addRow (acc : List (String × Int)) (r : IngredientRow) : List (String × Int) :=
  if acc.any fun p => p.1 == labelOf r then
    acc.map fun p => if p.1 == labelOf r then (p.1, p.2 + r.amount) else p
  else acc ++ [(labelOf r, r.amount)]

/-- The finished `ingredient_data` dict of `create_ingredient_list`. -/
def buildGroups (rows : List IngredientRow) : List (String × Int) :=
  rows.foldl addRow []

/-- `create_ingredient_list`: the header line followed by one line per dict
entry, each `f'\x7bingredient\x7d - \x7bamount\x7d \n'`. -/
def create_ingredient_list (rows : List IngredientRow) : List String :=
  "Список продуктов: \n" ::
    (buildGroups rows).map fun p => p.1 ++ " - " ++ toString p.2 ++ " \n"

/-- `download_shopping_cart`: builds the report from the user's cart; the view
performs no ORM write, so the state is returned unchanged. -/
def download_shopping_cart (s : State) (u : Nat) : List String × State :=
  (create_ingredient_list (cartRows s u), s)

/-- The report of `download_shopping_cart` as a list of lines. -/
def aggregate_shopping_list (s : State) (u : Nat) : List String :=
  (download_shopping_cart s u).1

/-- The body of the HTTP response: the report lines concatenated. -/
def response_content (s : State) (u : Nat) : String :=
  String.join (aggregate_shopping_list s u)

/-! ## Declarative descriptions of the aggregation, used to state claims -/

/-- First-occurrence deduplication, skipping elements already `seen`. -/
def dedupSeen [DecidableEq α] (seen : List α) : List α → List α
  | [] => []
  | k :: ks => if k ∈ seen then dedupSeen seen ks else k :: dedupSeen (k :: seen) ks

/-- Total amount of all rows rendering to the label `k`. -/
def totalFor (rows : List IngredientRow) (k : String) : Int :=
  ((rows.filter fun r => labelOf r == k).map (·.amount)).sum

/-- Grouping by the rendered label `"name (unit)"`: the labels in order of
first occurrence, each with the summed amount of its rows. -/
def groupedByLabel (rows : List IngredientRow) : List (String × Int) :=
  (dedupSeen [] (rows.map labelOf)).map fun k => (k, totalFor rows k)

/-- The `(name, measurement_unit)` pair of a queryset row. -/
def pairOf (r : IngredientRow) : String × String := (r.name, r.unit)

/-- Total amount of all rows carrying exactly the pair `pr`. -/
def pairTotal (rows : List IngredientRow) (pr : String × String) : Int :=
  ((rows.filter fun r => pairOf r == pr).map (·.amount)).sum

/-- Grouping by the `(name, measurement_unit)` pair, as the specification
words it: pairs in order of first occurrence, each with its summed amount. -/
def groupedByPair (rows : List IngredientRow) : List ((String × String) × Int) :=
  (dedupSeen [] (rows.map pairOf)).map fun pr => (pr, pairTotal rows pr)

/-- The ingredient name of the first row contributing to label `k` (used to
state that report lines come in ascending order of ingredient name). -/
def firstName (rows : List IngredientRow) (k : String) : String :=
  match rows.find? fun r => labelOf r == k with
  | some r => r.name
  | none => ""

/-! ## Recipe payload validation (api/serializers.py, RecipeCreateSerializer.validate)

`initial_data` is the raw JSON object, so field values can be absent, numbers
or strings; Python truthiness and `int()` are modelled explicitly. -/

/-- A JSON scalar as it reaches `validate` (number or string). -/
inductive JVal
  | num (n : Int)
  | str (s : String)
deriving DecidableEq, Repr

/-- Python truthiness of `ingredient.get(...)`: `None`, `0` and `''` are
falsy. -/
def truthy : Option JVal → Bool
  | none => false
  | some (.num n) => n != 0
  | some (.str s) => s != ""

/-- One element of the submitted `ingredients` list: the `id` and `amount`
keys, each possibly absent. -/
structure RawEntry where
  id : Option JVal
  amount : Option JVal
deriving DecidableEq, Repr

/-- The raw submission (`initial_data`): the five fields `validate` reads.
Tags are tag ids; absent keys are `none`. -/
structure RawPayload where
  tags : Option (List Nat)
  ingredients : Option (List RawEntry)
  name : Option String
  text : Option String
  cooking_time : Option JVal
deriving DecidableEq, Repr

/-- Truthiness of a possibly-absent list (`[]` is falsy). -/
def truthyList (v : Option (List α)) : Bool :=
  match v with
  | none => false
  | some l => !l.isEmpty

/-- Truthiness of a possibly-absent string (`''` is falsy). -/
def truthyStr (v : Option String) : Bool :=
  match v with
  | none => false
  | some s => s != ""

/-- Value of decimal digits, `none` when empty or a non-digit appears. -/
def parseDigits (cs : List Char) : Option Nat :=
  if cs.isEmpty then none
  else if cs.all (·.isDigit) then
    some (cs.foldl (fun a c => 10 * a + (c.toNat - 48)) 0)
  else none

/-- CPython `int(x)` on the values flowing through `validate`: an `int` is
returned as is; a string is parsed as an optionally signed decimal numeral
(surrounding whitespace stripped); `none` models the `ValueError` raised on
anything else.  (Underscore separators and non-ASCII digits, which the claims
never exercise, are treated as errors.) -/
def pyInt (v : JVal) : Option Int :=
  match v with
  | .num n => some n
  | .str s =>
    match s.trim.data with
    | '-' :: rest => (parseDigits rest).map fun n => -(n : Int)
    | '+' :: rest => (parseDigits rest).map fun n => (n : Int)
    | cs => (parseDigits cs).map fun n => (n : Int)

/-- Outcome of `validate`: success, a `ValidationError` with its message, or
an uncaught `ValueError` escaping from `int()`. -/
inductive VResult
  | ok
  | verr (msg : String)
  | valueError
deriving DecidableEq, Repr

/-- Message of the `MissingField` rejection. -/
def missingMsg (f : String) : String := "Не заполнено поле `" ++ f ++ "`"

/-- Message of the `IncompleteIngredient` rejection. -/
def incompleteMsg : String := "Необходимо указать `amount` и `id` для ингредиента."

/-- Message of the `InvalidAmount` rejection. -/
def invalidAmountMsg : String := "Количество ингредиента не может быть меньше 1."

/-- Message of the `DuplicateIngredient` rejection. -/
def duplicateMsg : String := "Необходимо исключить повторяющиеся ингредиенты."

/-- The `for ingredient in ingredients` loop of `validate`, carrying the
`ingredients_set` of ids seen so far.  Per entry, in source order: the falsy
check on `amount` and `id` (`IncompleteIngredient`), then
`int(ingredient['amount']) > 0` (`InvalidAmount`, or an uncaught `ValueError`),
then membership in `ingredients_set` (`DuplicateIngredient`). -/
def checkEntries (seen : List JVal) : List RawEntry → VResult
  | [] => .ok
  | e :: rest =>
    if !(truthy e.amount) || !(truthy e.id) then .verr incompleteMsg
    else
      match e.amount, e.id with
      | some av, some idv =>
        match pyInt av with
        | none => .valueError
        | some n =>
          if n ≤ 0 then .verr invalidAmountMsg
          else if idv ∈ seen then .verr duplicateMsg
          else checkEntries (idv :: seen) rest
      | _, _ => .verr incompleteMsg

/-- `RecipeCreateSerializer.validate`: the field-presence loop over
`('tags', 'ingredients', 'name', 'text', 'cooking_time')` in order, then the
per-entry ingredient loop. -/
def validate (raw : RawPayload) : VResult :=
  if !truthyList raw.tags then .verr (missingMsg "tags")
  else if !truthyList raw.ingredients then .verr (missingMsg "ingredients")
  else if !truthyStr raw.name then .verr (missingMsg "name")
  else if !truthyStr raw.text then .verr (missingMsg "text")
  else if !truthy raw.cooking_time then .verr (missingMsg "cooking_time")
  else checkEntries [] (raw.ingredients.getD [])

/-- The five field checks of `validate` all pass. -/
def fieldsOk (raw : RawPayload) : Bool :=
  truthyList raw.tags && truthyList raw.ingredients && truthyStr raw.name &&
    truthyStr raw.text && truthy raw.cooking_time

/-- An entry passes the presence and positivity checks (independently of the
duplicate check). -/
def entryWF (e : RawEntry) : Bool :=
  truthy e.amount && truthy e.id &&
    match e.amount with
    | some av => match pyInt av with
      | some n => decide (0 < n)
      | none => false
    | none => false

/-- `ingredients_set` after an entry: its `id` value is inserted (the loop
only reaches the insertion for entries that pass every check). -/
def seenPush (seen : List JVal) (e : RawEntry) : List JVal :=
  match e.id with
  | some idv => idv :: seen
  | none => seen

/-- An entry passes all three checks against the current `ingredients_set`. -/
def entryOk (seen : List JVal) (e : RawEntry) : Bool :=
  entryWF e &&
    match e.id with
    | some idv => decide (idv ∉ seen)
    | none => false

/-- Every entry of the list passes, threading `ingredients_set` through. -/
def allOk (seen : List JVal) : List RawEntry → Bool
  | [] => true
  | e :: rest => entryOk seen e && allOk (seenPush seen e) rest

/-! ## Recipe persistence (api/serializers.py, RecipeCreateSerializer.create /
update / create_recipe_ingredient)

The serializer performs its ORM writes one after another with no surrounding
transaction (`transaction.atomic` does not appear in the code), so under
Django's default autocommit each completed write stays persisted when a later
step raises. -/

/-- `validated_data` after deserialization: tag ids, `(ingredient id, amount)`
pairs, and the scalar fields. -/
structure Payload where
  tags : List Nat
  ingredients : List (Nat × Int)
  name : String
  text : String
  cooking_time : Int
deriving DecidableEq, Repr

/-- The loop of `create_recipe_ingredient` before `bulk_create`:
`Ingredient.objects.get(id=...)` for each entry, failing on the first id that
is not in the catalog (`DoesNotExist`, the `UnknownIngredient` case). -/
def resolveIngredients (catalog : List Ingredient) : List (Nat × Int) → Option (List (Nat × Int))
  | [] => some []
  | (i, a) :: rest =>
    match catalog.find? fun ing => ing.id == i with
    | none => none
    | some ing => (resolveIngredients catalog rest).map ((ing.id, a) :: ·)

/-- Failures of the write phase. -/
inductive WriteError
  | duplicateRecipe
  | unknownIngredient
  | recipeMissing
deriving DecidableEq, Repr

/-- Result of `create` / `update`. -/
inductive CreateResult
  | ok (rid : Nat)
  | err (e : WriteError)
deriving DecidableEq, Repr

/-- A fresh primary key for a new `Recipe` row. -/
def freshRecipeId (s : State) : Nat := (s.recipes.map (·.id)).foldl max 0 + 1

/-- The state after `Recipe.objects.create(**validated_data)` and
`recipe.tags.set(tags)` inside `create`: the recipe row and its tag rows are
persisted (each completed ORM write commits — there is no transaction). -/
def createHeaderState (s : State) (author : Nat) (p : Payload) : State :=
  { s with
    recipes := s.recipes ++
      [⟨freshRecipeId s, author, p.name, p.text, p.cooking_time⟩]
  , recipeTags := (s.recipeTags.filter fun t => t.1 ≠ freshRecipeId s) ++
      p.tags.map ((freshRecipeId s, ·)) }

/-- `RecipeCreateSerializer.create`: insert the `Recipe` row (the
`(author, name)` unique constraint can reject it first), then `tags.set`,
then `create_recipe_ingredient`.  A missing ingredient id raises after the
recipe row and its tags are already persisted, leaving
`createHeaderState`. -/
def create (s : State) (author : Nat) (p : Payload) : CreateResult × State :=
  if s.recipes.any fun r => r.author == author && r.name == p.name then
    (.err .duplicateRecipe, s)
  else
    match resolveIngredients s.ingredients p.ingredients with
    | none => (.err .unknownIngredient, createHeaderState s author p)
    | some rs =>
      (.ok (freshRecipeId s),
        { createHeaderState s author p with
          recipeIngredients := (createHeaderState s author p).recipeIngredients ++
            rs.map fun pr => ⟨freshRecipeId s, pr.1, pr.2⟩ })

/-- The state after `instance.ingredients.clear()` and
`instance.tags.clear()` inside `update`: both association sets are gone. -/
def clearedState (s : State) (rid : Nat) : State :=
  { s with
    recipeIngredients := s.recipeIngredients.filter fun ri => ri.recipe ≠ rid
  , recipeTags := s.recipeTags.filter fun t => t.1 ≠ rid }

/-- The state after the clears, the scalar field update and
`instance.tags.set(tags)` inside `update`. -/
def updateHeaderState (s : State) (rid : Nat) (p : Payload) : State :=
  { clearedState s rid with
    recipes := s.recipes.map fun r =>
      if r.id == rid then
        { r with name := p.name, text := p.text, cooking_time := p.cooking_time }
      else r
  , recipeTags := (s.recipeTags.filter fun t => t.1 ≠ rid) ++
      p.tags.map ((rid, ·)) }

/-- `RecipeCreateSerializer.update`: `ingredients.clear()`, `tags.clear()`,
then the field update (where the `(author, name)` unique constraint can
reject — the clears are already persisted), then `tags.set` and
`create_recipe_ingredient`. -/
def update (s : State) (rid : Nat) (p : Payload) : CreateResult × State :=
  match s.recipes.find? fun r => r.id == rid with
  | none => (.err .recipeMissing, s)
  | some r0 =>
    if s.recipes.any fun r =>
        r.id != rid && r.author == r0.author && r.name == p.name then
      (.err .duplicateRecipe, clearedState s rid)
    else
      match resolveIngredients s.ingredients p.ingredients with
      | none => (.err .unknownIngredient, updateHeaderState s rid p)
      | some rs =>
        (.ok rid,
          { updateHeaderState s rid p with
            recipeIngredients := (updateHeaderState s rid p).recipeIngredients ++
              rs.map fun pr => ⟨rid, pr.1, pr.2⟩ })

/-- The ingredient-association set of a recipe as read back by
`RecipeIngredientSerializer`: the `(ingredient id, amount)` pairs of its
`RecipeIngredients` rows. -/
def readPairs (s : State) (rid : Nat) : List (Nat × Int) :=
  (s.recipeIngredients.filter fun ri => ri.recipe == rid).map fun ri =>
    (ri.ingredient, ri.amount)

/-- The tag-association set of a recipe. -/
def readTags (s : State) (rid : Nat) : List Nat :=
  (s.recipeTags.filter fun t => t.1 == rid).map (·.2)

/-- Result of the full validate-then-create endpoint. -/
inductive ApiResult
  | ok (rid : Nat)
  | validationError (msg : String)
  | valueError
  | writeError (e : WriteError)
deriving DecidableEq, Repr

/-- `int()` coercion applied by the serializer fields, with a default for the
absent cases that validation has already excluded. -/
def jvalToInt (v : JVal) : Int := (pyInt v).getD 0

/-- `validated_data` extracted from a submission that passed validation
(deserialization by the serializer fields). -/
def toPayload (raw : RawPayload) : Payload :=
  { tags := raw.tags.getD []
  , ingredients := (raw.ingredients.getD []).map fun e =>
      ((jvalToInt (e.id.getD (.num 0))).toNat, jvalToInt (e.amount.getD (.num 0)))
  , name := raw.name.getD ""
  , text := raw.text.getD ""
  , cooking_time := jvalToInt (raw.cooking_time.getD (.num 0)) }

/-- The create endpoint: `is_valid(raise_exception=True)` runs `validate`
before any write; only a successful validation reaches `create`. -/
def perform_create (s : State) (author : Nat) (raw : RawPayload) : ApiResult × State :=
  match validate raw with
  | .verr m => (.validationError m, s)
  | .valueError => (.valueError, s)
  | .ok =>
    match create s author (toPayload raw) with
    | (.ok rid, s') => (.ok rid, s')
    | (.err e, s') => (.writeError e, s')

/-! ## Favorite / cart / subscription toggles (api/views.py) -/

/-- HTTP outcome of a toggle request. -/
inductive Resp
  | created
  | noContent
  | badRequest (msg : String)
  | notFound
deriving DecidableEq, Repr

/-- Which `(user, recipe)` join table a toggle addresses. -/
inductive JoinKind
  | favorite
  | cart
deriving DecidableEq, Repr

/-- The rows of the addressed join table. -/
def joinTable (s : State) : JoinKind → List (Nat × Nat)
  | .favorite => s.favorites
  | .cart => s.shoppingCart

/-- Replace the rows of the addressed join table. -/
def setJoinTable (s : State) (k : JoinKind) (l : List (Nat × Nat)) : State :=
  match k with
  | .favorite => { s with favorites := l }
  | .cart => { s with shoppingCart := l }

/-- `create_recipe_user`: `get_object_or_404(Recipe)`, then `get_or_create`;
an existing pair answers 400 with the duplicate message, otherwise the row is
created. -/
def create_recipe_user (s : State) (u rid : Nat) (k : JoinKind) : Resp × State :=
  if !(s.recipes.any fun r => r.id == rid) then (.notFound, s)
  else if (u, rid) ∈ joinTable s k then
    (.badRequest ("Уже есть рецепт с id = " ++ toString rid ++ "."), s)
  else (.created, setJoinTable s k (joinTable s k ++ [(u, rid)]))

/-- `delete_recipe_user`: `get_object_or_404(Recipe)`, then
`get_object_or_404(model, recipe, user)` — an absent pair answers 404 —
then `.delete()` of the fetched row. -/
def delete_recipe_user (s : State) (u rid : Nat) (k : JoinKind) : Resp × State :=
  if !(s.recipes.any fun r => r.id == rid) then (.notFound, s)
  else if (u, rid) ∈ joinTable s k then
    (.noContent, setJoinTable s k ((joinTable s k).erase (u, rid)))
  else (.notFound, s)

/-- `CustomUserViewSet.subscribe`, POST branch: `get_object_or_404(User)`,
then the already-subscribed check, then the self-subscription check, then
`Subscription.objects.create`. -/
def subscribe_post (s : State) (u pk : Nat) : Resp × State :=
  if !(s.users.contains pk) then (.notFound, s)
  else if (u, pk) ∈ s.subscriptions then
    (.badRequest "Вы уже подписаны на этого автора.", s)
  else if pk == u then
    (.badRequest "Вы не можете подписаться на самого себя.", s)
  else (.created, { s with subscriptions := s.subscriptions ++ [(u, pk)] })

/-- `CustomUserViewSet.subscribe`, DELETE branch: an absent subscription
answers 400 with the already-deleted message (not 404), otherwise the row is
deleted. -/
def subscribe_delete (s : State) (u pk : Nat) : Resp × State :=
  if !(s.users.contains pk) then (.notFound, s)
  else if (u, pk) ∈ s.subscriptions then
    (.noContent, { s with subscriptions := s.subscriptions.erase (u, pk) })
  else (.badRequest "Подписка уже удалена.", s)

/-! ## Reachable states -/

/-- One request handled by the system, as modelled here.  Registration and
catalog administration add rows; every other step is one of the modelled
endpoints acting for an existing user. -/
inductive Step : State → State → Prop
  | register (s : State) (u : Nat) (h : u ∉ s.users) :
      Step s { s with users := s.users ++ [u] }
  | addIngredient (s : State) (i : Ingredient) :
      Step s { s with ingredients := s.ingredients ++ [i] }
  | addTag (s : State) (t : Nat) :
      Step s { s with tags := s.tags ++ [t] }
  | createRecipe (s : State) (u : Nat) (raw : RawPayload) (h : u ∈ s.users) :
      Step s (perform_create s u raw).2
  | updateRecipe (s : State) (rid : Nat) (p : Payload) :
      Step s (update s rid p).2
  | favAdd (s : State) (u rid : Nat) (k : JoinKind) (h : u ∈ s.users) :
      Step s (create_recipe_user s u rid k).2
  | favDel (s : State) (u rid : Nat) (k : JoinKind) (h : u ∈ s.users) :
      Step s (delete_recipe_user s u rid k).2
  | subAdd (s : State) (u pk : Nat) (h : u ∈ s.users) :
      Step s (subscribe_post s u pk).2
  | subDel (s : State) (u pk : Nat) (h : u ∈ s.users) :
      Step s (subscribe_delete s u pk).2
  | download (s : State) (u : Nat) (h : u ∈ s.users) :
      Step s (download_shopping_cart s u).2

/-- States reachable from the empty database by handled requests. -/
inductive Reachable : State → Prop
  | init : Reachable initState
  | step {s s' : State} : Reachable s → Step s s' → Reachable s'

/-! ## Concrete states and payloads used in the claim theorems -/

/-- Two ingredients whose distinct `(name, unit)` pairs render to the same
label `"x (y (z)"`, both in one recipe carted by user 1. -/
def stateC1 : State :=
  { initState with
    users := [1]
  , ingredients := [⟨1, "x (y", "z"⟩, ⟨2, "x", "y (z"⟩]
  , recipes := [⟨1, 1, "r1", "t", 1⟩]
  , recipeIngredients := [⟨1, 1, 5⟩, ⟨1, 2, 10⟩]
  , shoppingCart := [(1, 1)] }

/-- Two cart recipes sharing ingredient `"Salt" (g)` at amounts 5 and 10
(the worked example of the specification). -/
def saltState : State :=
  { initState with
    users := [7]
  , ingredients := [⟨1, "Salt", "g"⟩]
  , recipes := [⟨1, 2, "borscht", "t", 30⟩, ⟨2, 2, "soup", "t", 20⟩]
  , recipeIngredients := [⟨1, 1, 5⟩, ⟨2, 1, 10⟩]
  , shoppingCart := [(7, 1), (7, 2)] }

/-- A state in which user 1 has one recipe with one ingredient in the cart. -/
def stateC10a : State :=
  { initState with
    users := [1, 2]
  , ingredients := [⟨1, "Salt", "g"⟩]
  , recipes := [⟨1, 2, "soup", "t", 5⟩]
  , recipeIngredients := [⟨1, 1, 4⟩]
  , shoppingCart := [(1, 1)] }

/-- `stateC10a` with extra favorite, cart and subscription rows that all
belong to user 2. -/
def stateC10b : State :=
  { stateC10a with
    favorites := [(2, 1)]
  , shoppingCart := [(1, 1), (2, 1)]
  , subscriptions := [(2, 1)] }

/-- A submission whose single ingredient entry has id 1 and amount 0, with
all other fields filled. -/
def rawAmountZero : RawPayload :=
  { tags := some [1]
  , ingredients := some [⟨some (.num 1), some (.num 0)⟩]
  , name := some "soup"
  , text := some "boil"
  , cooking_time := some (.num 5) }

/-- A submission whose single ingredient entry has id 1 and amount -1. -/
def rawAmountNeg : RawPayload :=
  { tags := some [1]
  , ingredients := some [⟨some (.num 1), some (.num (-1))⟩]
  , name := some "soup"
  , text := some "boil"
  , cooking_time := some (.num 5) }

/-- A submission whose first ingredient entry has amount -1 and whose second
entry is missing its id. -/
def rawOrder : RawPayload :=
  { tags := some [1]
  , ingredients := some [⟨some (.num 1), some (.num (-1))⟩, ⟨none, some (.num 2)⟩]
  , name := some "soup"
  , text := some "boil"
  , cooking_time := some (.num 5) }

/-- A submission whose first entry is valid and whose second entry is
missing its id. -/
def rawOrderTail : RawPayload :=
  { tags := some [1]
  , ingredients := some [⟨some (.num 1), some (.num 2)⟩, ⟨none, some (.num 2)⟩]
  , name := some "soup"
  , text := some "boil"
  , cooking_time := some (.num 5) }

/-- The specification's duplicate example: entries id 1 amount 2 and id 1
amount 3. -/
def rawDupExample : RawPayload :=
  { tags := some [1]
  , ingredients := some [⟨some (.num 1), some (.num 2)⟩, ⟨some (.num 1), some (.num 3)⟩]
  , name := some "soup"
  , text := some "boil"
  , cooking_time := some (.num 5) }

/-- Duplicate id 1, but the first entry carries amount -1. -/
def rawDupNeg : RawPayload :=
  { tags := some [1]
  , ingredients := some [⟨some (.num 1), some (.num (-1))⟩, ⟨some (.num 1), some (.num 2)⟩]
  , name := some "soup"
  , text := some "boil"
  , cooking_time := some (.num 5) }

/-- Catalog with ingredient 1 only; user 1 and tag 1 exist. -/
def stateC2 : State :=
  { initState with users := [1], tags := [1], ingredients := [⟨1, "Salt", "g"⟩] }

/-- A validated payload referencing the unknown ingredient id 2. -/
def payloadUnknown : Payload :=
  { tags := [1], ingredients := [(2, 5)], name := "x", text := "y", cooking_time := 3 }

/-- Catalog with ingredients A (id 1) and B (id 2). -/
def stateC3 : State :=
  { initState with
    users := [1]
  , tags := [1]
  , ingredients := [⟨1, "A", "g"⟩, ⟨2, "B", "g"⟩] }

/-- Payload with ingredient set `[A amount 2]`. -/
def payloadA : Payload :=
  { tags := [1], ingredients := [(1, 2)], name := "x", text := "y", cooking_time := 3 }

/-- Payload with ingredient set `[B amount 3]`. -/
def payloadB : Payload :=
  { tags := [1], ingredients := [(2, 3)], name := "x", text := "y", cooking_time := 3 }

/-- A state with user 1 registered and nothing else. -/
def stateC8 : State := { initState with users := [1] }

/-- A state with a recipe that user 1 can favorite. -/
def stateC8fav : State :=
  { initState with users := [1, 2], recipes := [⟨1, 2, "soup", "t", 5⟩] }

/-! ## Lemmas: the defaultdict loop groups by label and sums amounts -/

theorem totalFor_cons (r : IngredientRow) (rs : List IngredientRow) (k : String) :
    totalFor (r :: rs) k =
      if labelOf r = k then r.amount + totalFor rs k else totalFor rs k := by
  by_cases h : labelOf r = k <;> simp [totalFor, List.filter_cons, h]

theorem mem_dedupSeen {α : Type} [DecidableEq α] {seen l : List α} {a : α}
    (h : a ∈ dedupSeen seen l) : a ∈ l ∧ a ∉ seen := by
  induction l generalizing seen with
  | nil => simp [dedupSeen] at h
  | cons k ks ih =>
    by_cases hk : k ∈ seen
    · rw [dedupSeen, if_pos hk] at h
      rcases ih h with ⟨h1, h2⟩
      exact ⟨List.mem_cons_of_mem _ h1, h2⟩
    · rw [dedupSeen, if_neg hk] at h
      rcases List.mem_cons.mp h with rfl | h'
      · exact ⟨List.mem_cons_self _ _, hk⟩
      · rcases ih h' with ⟨h1, h2⟩
        refine ⟨List.mem_cons_of_mem _ h1, fun c => h2 (List.mem_cons_of_mem _ c)⟩

theorem dedupSeen_congr {α : Type} [DecidableEq α] (seen₁ seen₂ l : List α)
    (h : ∀ x : α, x ∈ seen₁ ↔ x ∈ seen₂) : dedupSeen seen₁ l = dedupSeen seen₂ l := by
  induction l generalizing seen₁ seen₂ with
  | nil => rfl
  | cons k ks ih =>
    by_cases hk : k ∈ seen₁
    · rw [dedupSeen, dedupSeen, if_pos hk, if_pos ((h k).mp hk)]
      exact ih _ _ h
    · rw [dedupSeen, dedupSeen, if_neg hk, if_neg (fun c => hk ((h k).mpr c))]
      refine congrArg _ (ih _ _ fun x => ?_)
      simp only [List.mem_cons, h x]

theorem addRow_of_mem {acc : List (String × Int)} {r : IngredientRow}
    (h : labelOf r ∈ acc.map Prod.fst) :
    addRow acc r = acc.map fun p => if p.1 == labelOf r then (p.1, p.2 + r.amount) else p := by
  rcases List.mem_map.mp h with ⟨p, hp, hfst⟩
  have : acc.any (fun p => p.1 == labelOf r) = true :=
    List.any_eq_true.mpr ⟨p, hp, by simp [hfst]⟩
  simp [addRow, this]

theorem addRow_of_not_mem {acc : List (String × Int)} {r : IngredientRow}
    (h : labelOf r ∉ acc.map Prod.fst) :
    addRow acc r = acc ++ [(labelOf r, r.amount)] := by
  have : acc.any (fun p => p.1 == labelOf r) = false := by
    rw [List.any_eq_false]
    intro p hp
    simp only [beq_iff_eq]
    exact fun c => h (List.mem_map.mpr ⟨p, hp, c⟩)
  simp [addRow, this]

theorem foldl_addRow_eq (rows : List IngredientRow) :
    ∀ acc : List (String × Int),
      rows.foldl addRow acc =
        (acc.map fun p => (p.1, p.2 + totalFor rows p.1)) ++
          ((dedupSeen (acc.map Prod.fst) (rows.map labelOf)).map
            fun k => (k, totalFor rows k)) := by
  induction rows with
  | nil => intro acc; simp [totalFor, dedupSeen]
  | cons r rs ih =>
    intro acc
    rw [List.foldl_cons]
    by_cases hmem : labelOf r ∈ acc.map Prod.fst
    · rw [addRow_of_mem hmem, ih]
      have hkeys : ((acc.map fun p =>
          if p.1 == labelOf r then (p.1, p.2 + r.amount) else p).map Prod.fst) =
          acc.map Prod.fst := by
        rw [List.map_map]
        refine List.map_congr_left fun p _ => ?_
        by_cases hp : p.1 = labelOf r <;> simp [hp]
      rw [hkeys]
      congr 1
      · rw [List.map_map]
        refine List.map_congr_left fun p _ => ?_
        by_cases hp : p.1 = labelOf r
        · simp [hp, totalFor_cons, Int.add_assoc]
        · have h2 : labelOf r ≠ p.1 := fun c => hp c.symm
          simp [hp, totalFor_cons, h2]
      · rw [List.map_cons, dedupSeen, if_pos hmem]
        refine List.map_congr_left fun k hk => ?_
        have hne : labelOf r ≠ k := fun c => (mem_dedupSeen hk).2 (c ▸ hmem)
        rw [totalFor_cons, if_neg hne]
    · rw [addRow_of_not_mem hmem, ih]
      have hfst : (acc ++ [(labelOf r, r.amount)]).map Prod.fst =
          acc.map Prod.fst ++ [labelOf r] := by simp
      have hseen : dedupSeen ((acc.map Prod.fst) ++ [labelOf r]) (rs.map labelOf) =
          dedupSeen (labelOf r :: acc.map Prod.fst) (rs.map labelOf) :=
        dedupSeen_congr _ _ _ fun x => by simp [or_comm]
      have hrhs : dedupSeen (acc.map Prod.fst) ((r :: rs).map labelOf) =
          labelOf r :: dedupSeen (labelOf r :: acc.map Prod.fst) (rs.map labelOf) := by
        rw [List.map_cons, dedupSeen, if_neg hmem]
      rw [hfst, hseen, hrhs]
      simp only [List.map_append, List.map_cons, List.map_nil, List.append_assoc,
        List.singleton_append]
      congr 1
      · refine List.map_congr_left fun p hp => ?_
        have hne : labelOf r ≠ p.1 := fun c => hmem (c ▸ List.mem_map.mpr ⟨p, hp, rfl⟩)
        rw [totalFor_cons, if_neg hne]
      · congr 1
        · rw [totalFor_cons, if_pos rfl]
        · refine List.map_congr_left fun k hk => ?_
          have hne : labelOf r ≠ k := fun c =>
            (mem_dedupSeen hk).2 (c ▸ List.mem_cons_self _ _)
          rw [totalFor_cons, if_neg hne]

theorem buildGroups_eq (rows : List IngredientRow) :
    buildGroups rows = groupedByLabel rows := by
  rw [buildGroups, groupedByLabel, foldl_addRow_eq]
  simp

/-! ## Lemmas: the insertion sort on names sorts and permutes -/

theorem leChars_total (a : List Char) : ∀ b, leChars a b = true ∨ leChars b a = true := by
  induction a with
  | nil => intro b; left; rfl
  | cons x xs ih =>
    intro b
    cases b with
    | nil => right; rfl
    | cons y ys =>
      by_cases h1 : x.toNat < y.toNat
      · left; simp [leChars, h1]
      · by_cases h2 : y.toNat < x.toNat
        · right; simp [leChars, h2]
        · rcases ih ys with h | h
          · left; simp [leChars, h1, h2, h]
          · right; simp [leChars, h2, h1, h]

theorem leChars_trans : ∀ {a b c : List Char},
    leChars a b = true → leChars b c = true → leChars a c = true := by
  intro a
  induction a with
  | nil => intro b c _ _; rfl
  | cons x xs ih =>
    intro b c h1 h2
    cases b with
    | nil => simp [leChars] at h1
    | cons y ys =>
      cases c with
      | nil => simp [leChars] at h2
      | cons z zs =>
        rw [leChars] at h1 h2 ⊢
        by_cases hxy : x.toNat < y.toNat
        · by_cases hyz : y.toNat < z.toNat
          · simp [Nat.lt_trans hxy hyz]
          · by_cases hzy : z.toNat < y.toNat
            · simp [hyz, hzy] at h2
            · have hxz : x.toNat < z.toNat := by omega
              simp [hxz]
        · by_cases hyx : y.toNat < x.toNat
          · simp [hxy, hyx] at h1
          · simp [hxy, hyx] at h1
            by_cases hyz : y.toNat < z.toNat
            · have hxz : x.toNat < z.toNat := by omega
              simp [hxz]
            · by_cases hzy : z.toNat < y.toNat
              · simp [hyz, hzy] at h2
              · simp [hyz, hzy] at h2
                have hxz : ¬ x.toNat < z.toNat := by omega
                have hzx : ¬ z.toNat < x.toNat := by omega
                simp [hxz, hzx]
                exact ih h1 h2

theorem strLe_total (a b : String) : strLe a b = true ∨ strLe b a = true :=
  leChars_total a.data b.data

theorem strLe_trans {a b c : String} (h1 : strLe a b = true) (h2 : strLe b c = true) :
    strLe a c = true :=
  leChars_trans h1 h2

theorem insertByName_perm (r : IngredientRow) (l : List IngredientRow) :
    (insertByName r l).Perm (r :: l) := by
  induction l with
  | nil => exact List.Perm.refl _
  | cons x xs ih =>
    by_cases h : strLe r.name x.name = true
    · rw [insertByName, if_pos h]
    · rw [insertByName, if_neg h]
      exact (ih.cons x).trans (List.Perm.swap r x xs)

theorem orderByName_perm (l : List IngredientRow) : (orderByName l).Perm l := by
  induction l with
  | nil => exact List.Perm.refl _
  | cons r rs ih => exact (insertByName_perm r (orderByName rs)).trans (ih.cons r)

theorem insertByName_sorted {r : IngredientRow} {l : List IngredientRow}
    (h : l.Pairwise fun a b => strLe a.name b.name = true) :
    (insertByName r l).Pairwise fun a b => strLe a.name b.name = true := by
  induction l with
  | nil => simp [insertByName]
  | cons x xs ih =>
    rcases List.pairwise_cons.mp h with ⟨hx, hxs⟩
    by_cases hc : strLe r.name x.name = true
    · rw [insertByName, if_pos hc]
      refine List.pairwise_cons.mpr ⟨?_, h⟩
      intro b hb
      rcases List.mem_cons.mp hb with rfl | hb'
      · exact hc
      · exact strLe_trans hc (hx b hb')
    · rw [insertByName, if_neg hc]
      refine List.pairwise_cons.mpr ⟨?_, ih hxs⟩
      intro b hb
      have hb' := (insertByName_perm r xs).mem_iff.mp hb
      rcases List.mem_cons.mp hb' with rfl | hb'
      · rcases strLe_total b.name x.name with h1 | h1
        · exact absurd h1 hc
        · exact h1
      · exact hx b hb'

theorem orderByName_sorted (l : List IngredientRow) :
    (orderByName l).Pairwise fun a b => strLe a.name b.name = true := by
  induction l with
  | nil => exact List.Pairwise.nil
  | cons r rs ih => exact insertByName_sorted ih

theorem firstName_cons_ne {r : IngredientRow} {rs : List IngredientRow} {k : String}
    (h : labelOf r ≠ k) : firstName (r :: rs) k = firstName rs k := by
  rw [firstName, List.find?_cons_of_neg, firstName]
  simp [h]

theorem firstName_mem {rows : List IngredientRow} {k : String}
    (h : k ∈ rows.map labelOf) :
    ∃ x ∈ rows, labelOf x = k ∧ firstName rows k = x.name := by
  rcases List.mem_map.mp h with ⟨y, hy, hyk⟩
  have hsome : (rows.find? fun r => labelOf r == k).isSome :=
    List.find?_isSome.mpr ⟨y, hy, by simp [hyk]⟩
  rcases Option.isSome_iff_exists.mp hsome with ⟨x, hx⟩
  refine ⟨x, List.mem_of_find?_eq_some hx, ?_, ?_⟩
  · have := List.find?_some hx
    simpa using this
  · rw [firstName, hx]

theorem dedupSeen_pairwise_firstName :
    ∀ (rows : List IngredientRow) (seen : List String),
      (rows.Pairwise fun a b => strLe a.name b.name = true) →
      (dedupSeen seen (rows.map labelOf)).Pairwise
        fun k₁ k₂ => strLe (firstName rows k₁) (firstName rows k₂) = true := by
  intro rows
  induction rows with
  | nil => intro seen _; exact List.Pairwise.nil
  | cons r rs ih =>
    intro seen hs
    rcases List.pairwise_cons.mp hs with ⟨hr, hrs⟩
    rw [List.map_cons, dedupSeen]
    by_cases hmem : labelOf r ∈ seen
    · rw [if_pos hmem]
      refine List.Pairwise.imp_of_mem ?_ (ih seen hrs)
      intro k₁ k₂ h₁ h₂ hle
      have hne₁ : labelOf r ≠ k₁ := fun c => (mem_dedupSeen h₁).2 (c ▸ hmem)
      have hne₂ : labelOf r ≠ k₂ := fun c => (mem_dedupSeen h₂).2 (c ▸ hmem)
      rwa [firstName_cons_ne hne₁, firstName_cons_ne hne₂]
    · rw [if_neg hmem]
      refine List.pairwise_cons.mpr ⟨?_, ?_⟩
      · intro k hk
        rcases mem_dedupSeen hk with ⟨hkl, hkseen⟩
        have hne : labelOf r ≠ k := fun c => hkseen (c ▸ List.mem_cons_self _ _)
        rw [firstName_cons_ne hne]
        have hhead : firstName (r :: rs) (labelOf r) = r.name := by
          rw [firstName, List.find?_cons_of_pos]
          simp
        rw [hhead]
        rcases firstName_mem hkl with ⟨x, hxmem, _, hxname⟩
        rw [hxname]
        exact hr x hxmem
      · refine List.Pairwise.imp_of_mem ?_ (ih (labelOf r :: seen) hrs)
        intro k₁ k₂ h₁ h₂ hle
        have hne₁ : labelOf r ≠ k₁ := fun c =>
          (mem_dedupSeen h₁).2 (c ▸ List.mem_cons_self _ _)
        have hne₂ : labelOf r ≠ k₂ := fun c =>
          (mem_dedupSeen h₂).2 (c ▸ List.mem_cons_self _ _)
        rwa [firstName_cons_ne hne₁, firstName_cons_ne hne₂]

theorem totalFor_perm {l₁ l₂ : List IngredientRow} (h : l₁.Perm l₂) (k : String) :
    totalFor l₁ k = totalFor l₂ k := by
  unfold totalFor
  exact ((h.filter _).map _).sum_eq

/-! ## Concrete states for the aggregator claims -/

/-- C1 counterexample: the aggregator does not group the cart rows by the
`(ingredient name, measurement unit)` pair — it groups by the rendered label
`"name (unit)"`.  In `stateC1` the cart rows carry two distinct pairs, so
grouping by pair yields two groups, yet the report has a single merged
ingredient line. -/
theorem aggregation_groups_by_pair_cex :
    (buildGroups (cartRows stateC1 1)).length = 1 ∧
    (groupedByPair (cartRows stateC1 1)).length = 2 ∧
    aggregate_shopping_list stateC1 1 =
      ["Список продуктов: \n", "x (y (z) - 15 \n"] := by
  refine ⟨by decide, by decide, by decide⟩

/-- C1 amended: `aggregate_shopping_list` collects exactly the cart rows of
the given user, groups them by the rendered label `"name (unit)"` (which
coincides with the `(name, unit)` pair whenever distinct pairs render to
distinct labels), and sums the amounts of all contributing rows within each
group; the Salt example produces the single line `"Salt (g) - 15 \n"`. -/
theorem aggregation_groups_by_label_and_sums :
    (∀ s u, buildGroups (cartRows s u) = groupedByLabel (cartRows s u) ∧
      ∀ k, totalFor (cartRows s u) k = totalFor (cartRowsUnsorted s u) k) ∧
    aggregate_shopping_list saltState 7 =
      ["Список продуктов: \n", "Salt (g) - 15 \n"] := by
  refine ⟨fun s u => ⟨buildGroups_eq _, fun k => ?_⟩, by decide⟩
  exact totalFor_perm (orderByName_perm _) k

/-- C7: the report is the fixed header line followed by one line per
aggregated group in `"label - total \n"` form, every such line comes from a
cart row and renders its label (`"name (unit)"`) with the group's summed
amount, lines appear in ascending order of the ingredient name of the
group's first row, and an empty cart produces just the header. -/
theorem report_header_format_order_empty (s : State) (u : Nat) :
    aggregate_shopping_list s u =
      "Список продуктов: \n" ::
        (groupedByLabel (cartRows s u)).map
          (fun p => p.1 ++ " - " ++ toString p.2 ++ " \n") ∧
    (∀ line ∈ (aggregate_shopping_list s u).tail,
      ∃ r ∈ cartRows s u,
        line = labelOf r ++ " - " ++
          toString (totalFor (cartRows s u) (labelOf r)) ++ " \n") ∧
    ((buildGroups (cartRows s u)).map Prod.fst).Pairwise
      (fun k₁ k₂ =>
        strLe (firstName (cartRows s u) k₁) (firstName (cartRows s u) k₂) = true) ∧
    ((∀ r, (u, r) ∉ s.shoppingCart) →
      aggregate_shopping_list s u = ["Список продуктов: \n"]) := by
  have hmain : aggregate_shopping_list s u =
      "Список продуктов: \n" ::
        (groupedByLabel (cartRows s u)).map
          (fun p => p.1 ++ " - " ++ toString p.2 ++ " \n") := by
    simp only [aggregate_shopping_list, download_shopping_cart,
      create_ingredient_list, buildGroups_eq]
  refine ⟨hmain, ?_, ?_, ?_⟩
  · intro line hline
    rw [hmain] at hline
    simp only [List.tail_cons] at hline
    rcases List.mem_map.mp hline with ⟨p, hp, hfmt⟩
    rw [groupedByLabel] at hp
    rcases List.mem_map.mp hp with ⟨k, hk, hpk⟩
    rcases List.mem_map.mp (mem_dedupSeen hk).1 with ⟨r, hr, hrk⟩
    refine ⟨r, hr, ?_⟩
    rw [← hfmt, ← hpk, hrk]
  · have hkeys : ((buildGroups (cartRows s u)).map Prod.fst) =
        dedupSeen [] ((cartRows s u).map labelOf) := by
      rw [buildGroups_eq, groupedByLabel, List.map_map]
      rw [show (Prod.fst ∘ fun k => (k, totalFor (cartRows s u) k)) = id from rfl]
      rw [List.map_id]
    rw [hkeys]
    have hsorted : (cartRows s u).Pairwise fun a b => strLe a.name b.name = true :=
      orderByName_sorted (cartRowsUnsorted s u)
    exact dedupSeen_pairwise_firstName _ [] hsorted
  · intro hempty
    have hrows : cartRowsUnsorted s u = [] := by
      rw [cartRowsUnsorted, List.filterMap_eq_nil_iff]
      intro ri _
      rw [if_neg (hempty ri.recipe)]
    simp [aggregate_shopping_list, download_shopping_cart, create_ingredient_list,
      cartRows, hrows, orderByName, buildGroups]

/-- Witness for the empty-cart hypothesis of the C7 theorem at the empty
database. -/
theorem report_header_format_order_empty_witness :
    aggregate_shopping_list initState 1 = ["Список продуктов: \n"] :=
  (report_header_format_order_empty initState 1).2.2.2 (by intro r; simp [initState])

/-- C10: the shopping-list report reads only the acting user's cart rows and
the recipe/ingredient data they reference: two states that agree on every
non-join table and on the acting user's own join rows (differing only in
join rows of other users) produce identical reports, character for
character, and the download performs no write. -/
theorem shopping_list_noninterference
    (s₁ s₂ : State) (u : Nat)
    (husers : s₁.users = s₂.users)
    (htags : s₁.tags = s₂.tags)
    (hing : s₁.ingredients = s₂.ingredients)
    (hrec : s₁.recipes = s₂.recipes)
    (hrt : s₁.recipeTags = s₂.recipeTags)
    (hri : s₁.recipeIngredients = s₂.recipeIngredients)
    (hfav : s₁.favorites.filter (fun p => p.1 == u) =
      s₂.favorites.filter (fun p => p.1 == u))
    (hcart : s₁.shoppingCart.filter (fun p => p.1 == u) =
      s₂.shoppingCart.filter (fun p => p.1 == u))
    (hsub : s₁.subscriptions.filter (fun p => p.1 == u) =
      s₂.subscriptions.filter (fun p => p.1 == u)) :
    aggregate_shopping_list s₁ u = aggregate_shopping_list s₂ u ∧
    response_content s₁ u = response_content s₂ u ∧
    (download_shopping_cart s₁ u).2 = s₁ := by
  have hmem : ∀ r, ((u, r) ∈ s₁.shoppingCart) ↔ ((u, r) ∈ s₂.shoppingCart) := by
    intro r
    constructor
    · intro h
      have h' : (u, r) ∈ s₁.shoppingCart.filter (fun p => p.1 == u) :=
        List.mem_filter.mpr ⟨h, by simp⟩
      rw [hcart] at h'
      exact (List.mem_filter.mp h').1
    · intro h
      have h' : (u, r) ∈ s₂.shoppingCart.filter (fun p => p.1 == u) :=
        List.mem_filter.mpr ⟨h, by simp⟩
      rw [← hcart] at h'
      exact (List.mem_filter.mp h').1
  have hrows : cartRowsUnsorted s₁ u = cartRowsUnsorted s₂ u := by
    rw [cartRowsUnsorted, cartRowsUnsorted, hri, hing]
    congr 1
    funext ri
    exact if_congr (hmem ri.recipe) rfl rfl
  have hlist : aggregate_shopping_list s₁ u = aggregate_shopping_list s₂ u := by
    simp only [aggregate_shopping_list, download_shopping_cart, cartRows, hrows]
  exact ⟨hlist, by rw [response_content, hlist, response_content], rfl⟩

/-- Witness: the noninterference theorem applied to two concrete states that
differ only in user 2's join rows, read as user 1. -/
theorem shopping_list_noninterference_witness :
    aggregate_shopping_list stateC10a 1 = aggregate_shopping_list stateC10b 1 ∧
    response_content stateC10a 1 = response_content stateC10b 1 ∧
    (download_shopping_cart stateC10a 1).2 = stateC10a :=
  shopping_list_noninterference stateC10a stateC10b 1 rfl rfl rfl rfl rfl rfl
    (by decide) (by decide) (by decide)

/-! ## Lemmas: behaviour of the validation loop -/

theorem band_split {a b : Bool} (h : (a && b) = true) : a = true ∧ b = true := by
  simp only [Bool.and_eq_true] at h
  exact h

theorem checkEntries_cons_eq {e : RawEntry} {av idv : JVal}
    (ha : e.amount = some av) (hi : e.id = some idv)
    (seen : List JVal) (rest : List RawEntry) :
    checkEntries seen (e :: rest) =
      if !(truthy (some av)) || !(truthy (some idv)) then VResult.verr incompleteMsg
      else
        match pyInt av with
        | none => VResult.valueError
        | some n =>
          if n ≤ 0 then VResult.verr invalidAmountMsg
          else if idv ∈ seen then VResult.verr duplicateMsg
          else checkEntries (idv :: seen) rest := by
  rw [checkEntries, ha, hi]

theorem checkEntries_cons_incomplete {e : RawEntry}
    (h : truthy e.amount = false ∨ truthy e.id = false)
    (seen : List JVal) (rest : List RawEntry) :
    checkEntries seen (e :: rest) = VResult.verr incompleteMsg := by
  have hc : (!(truthy e.amount) || !(truthy e.id)) = true := by
    rcases h with h | h <;> simp [h]
  rw [checkEntries, if_pos hc]

theorem seenPush_eq {e : RawEntry} {idv : JVal} (hi : e.id = some idv)
    (seen : List JVal) : seenPush seen e = idv :: seen := by
  rw [seenPush, hi]

theorem entryWF_spec {e : RawEntry} (h : entryWF e = true) :
    ∃ av idv n, e.amount = some av ∧ e.id = some idv ∧
      truthy (some av) = true ∧ truthy (some idv) = true ∧
      pyInt av = some n ∧ 0 < n := by
  rw [entryWF] at h
  rcases band_split h with ⟨h1, h2⟩
  rcases band_split h1 with ⟨ham, hid⟩
  cases ha : e.amount with
  | none => rw [ha] at ham; simp [truthy] at ham
  | some av =>
    cases hi : e.id with
    | none => rw [hi] at hid; simp [truthy] at hid
    | some idv =>
      rw [ha] at h2
      replace h2 : (match pyInt av with
        | some n => decide (0 < n)
        | none => false) = true := h2
      cases hp : pyInt av with
      | none => rw [hp] at h2; simp at h2
      | some n =>
        rw [hp] at h2
        replace h2 : decide (0 < n) = true := h2
        refine ⟨av, idv, n, rfl, rfl, ?_, ?_, hp, of_decide_eq_true h2⟩
        · rw [ha] at ham; exact ham
        · rw [hi] at hid; exact hid

theorem entryOk_spec {seen : List JVal} {e : RawEntry} (h : entryOk seen e = true) :
    ∃ av idv n, e.amount = some av ∧ e.id = some idv ∧
      truthy (some av) = true ∧ truthy (some idv) = true ∧
      pyInt av = some n ∧ 0 < n ∧ idv ∉ seen := by
  rw [entryOk] at h
  rcases band_split h with ⟨hwf, hid⟩
  rcases entryWF_spec hwf with ⟨av, idv, n, ha, hi, htam, htid, hp, hn⟩
  rw [hi] at hid
  replace hid : decide (idv ∉ seen) = true := hid
  exact ⟨av, idv, n, ha, hi, htam, htid, hp, hn, of_decide_eq_true hid⟩

theorem checkEntries_cons_ok {seen : List JVal} {e : RawEntry}
    (h : entryOk seen e = true) (rest : List RawEntry) :
    checkEntries seen (e :: rest) = checkEntries (seenPush seen e) rest := by
  rcases entryOk_spec h with ⟨av, idv, n, ha, hi, htam, htid, hp, hn, hns⟩
  have hn' : ¬ n ≤ 0 := by omega
  rw [checkEntries_cons_eq ha hi, seenPush_eq hi]
  simp [htam, htid, hp, hn', hns]

theorem checkEntries_append : ∀ (es₁ : List RawEntry) {seen : List JVal},
    allOk seen es₁ = true →
    ∀ es₂, checkEntries seen (es₁ ++ es₂) = checkEntries (es₁.foldl seenPush seen) es₂ := by
  intro es₁
  induction es₁ with
  | nil => intro seen _ es₂; rfl
  | cons e es ih =>
    intro seen hok es₂
    rw [allOk] at hok
    rcases band_split hok with ⟨he, hrest⟩
    rw [List.cons_append, checkEntries_cons_ok he, List.foldl_cons]
    exact ih hrest es₂

theorem validate_eq_check {raw : RawPayload} (h : fieldsOk raw = true) :
    validate raw = checkEntries [] (raw.ingredients.getD []) := by
  rw [fieldsOk] at h
  simp only [Bool.and_eq_true] at h
  obtain ⟨⟨⟨⟨h1, h2⟩, h3⟩, h4⟩, h5⟩ := h
  simp [validate, h1, h2, h3, h4, h5]

theorem validate_ok_spec {raw : RawPayload} (h : validate raw = .ok) :
    fieldsOk raw = true ∧ checkEntries [] (raw.ingredients.getD []) = .ok := by
  by_cases h1 : truthyList raw.tags = true
  · by_cases h2 : truthyList raw.ingredients = true
    · by_cases h3 : truthyStr raw.name = true
      · by_cases h4 : truthyStr raw.text = true
        · by_cases h5 : truthy raw.cooking_time = true
          · refine ⟨by rw [fieldsOk]; simp [h1, h2, h3, h4, h5], ?_⟩
            rw [validate] at h
            simpa [h1, h2, h3, h4, h5] using h
          · rw [validate] at h; simp [h1, h2, h3, h4, h5] at h
        · rw [validate] at h; simp [h1, h2, h3, h4] at h
      · rw [validate] at h; simp [h1, h2, h3] at h
    · rw [validate] at h; simp [h1, h2] at h
  · rw [validate] at h; simp [h1] at h

theorem checkEntries_ok_nodup : ∀ (es : List RawEntry) (seen : List JVal),
    checkEntries seen es = .ok →
    (es.filterMap RawEntry.id).Nodup ∧ ∀ v ∈ es.filterMap RawEntry.id, v ∉ seen := by
  intro es
  induction es with
  | nil => intro seen _; exact ⟨List.nodup_nil, by simp⟩
  | cons e rest ih =>
    intro seen h
    cases ha : e.amount with
    | none =>
      rw [checkEntries_cons_incomplete (Or.inl (by rw [ha]; rfl)) seen rest] at h
      exact absurd h (by simp)
    | some av =>
      cases hi : e.id with
      | none =>
        rw [checkEntries_cons_incomplete (Or.inr (by rw [hi]; rfl)) seen rest] at h
        exact absurd h (by simp)
      | some idv =>
        rw [checkEntries_cons_eq ha hi] at h
        by_cases h1 : (!(truthy (some av)) || !(truthy (some idv))) = true
        · rw [if_pos h1] at h; exact absurd h (by simp)
        · rw [if_neg h1] at h
          cases hp : pyInt av with
          | none =>
            rw [hp] at h
            replace h : VResult.valueError = VResult.ok := h
            exact absurd h (by simp)
          | some n =>
            rw [hp] at h
            replace h : (if n ≤ 0 then VResult.verr invalidAmountMsg
              else if idv ∈ seen then VResult.verr duplicateMsg
              else checkEntries (idv :: seen) rest) = VResult.ok := h
            by_cases hn : n ≤ 0
            · rw [if_pos hn] at h; exact absurd h (by simp)
            · rw [if_neg hn] at h
              by_cases hs : idv ∈ seen
              · rw [if_pos hs] at h; exact absurd h (by simp)
              · rw [if_neg hs] at h
                rcases ih (idv :: seen) h with ⟨hnd, hnin⟩
                have hfm : List.filterMap RawEntry.id (e :: rest) =
                    idv :: List.filterMap RawEntry.id rest := by
                  simp [List.filterMap_cons, hi]
                constructor
                · rw [hfm]
                  refine List.Nodup.cons ?_ hnd
                  intro hmem
                  exact (hnin idv hmem) (List.mem_cons_self _ _)
                · intro v hv hvseen
                  rw [hfm] at hv
                  rcases List.mem_cons.mp hv with rfl | hv'
                  · exact hs hvseen
                  · exact hnin v hv' (List.mem_cons_of_mem _ hvseen)

theorem checkEntries_wf_ok_or_dup : ∀ (es : List RawEntry) (seen : List JVal),
    (∀ e ∈ es, entryWF e = true) →
    checkEntries seen es = .ok ∨ checkEntries seen es = .verr duplicateMsg := by
  intro es
  induction es with
  | nil => intro seen _; left; rfl
  | cons e rest ih =>
    intro seen hwf
    rcases entryWF_spec (hwf e (List.mem_cons_self _ _)) with
      ⟨av, idv, n, ha, hi, htam, htid, hp, hn⟩
    have hn' : ¬ n ≤ 0 := by omega
    by_cases hs : idv ∈ seen
    · right
      rw [checkEntries_cons_eq ha hi]
      simp [htam, htid, hp, hn', hs]
    · have hrec := ih (idv :: seen) (fun x hx => hwf x (List.mem_cons_of_mem _ hx))
      rw [checkEntries_cons_eq ha hi]
      simpa [htam, htid, hp, hn', hs] using hrec

/-! ## Claim theorems: validation (C4, C5, C6) -/

/-- C4 counterexample: submitting `amount: 0` does not reject with
`InvalidAmount` — the falsy presence check fires first and the submission is
rejected with the `IncompleteIngredient` message. -/
theorem invalid_amount_cex :
    validate rawAmountZero = .verr incompleteMsg ∧ incompleteMsg ≠ invalidAmountMsg :=
  ⟨by decide, by decide⟩

/-- C4 amended: an entry whose truthy `amount` parses to an integer `≤ 0`
(with truthy `id`, valid earlier entries and filled fields) rejects with
`InvalidAmount`; an entry whose `amount` is falsy — which includes the
integer 0 and a missing amount — rejects with `IncompleteIngredient`
instead; an entry whose truthy `amount` does not parse as an integer
escapes as an uncaught `ValueError`, not a validation error. -/
theorem invalid_amount_behavior :
    (∀ (raw : RawPayload) (es₁ : List RawEntry) (e : RawEntry) (es₂ : List RawEntry)
        (av idv : JVal) (n : Int),
      fieldsOk raw = true →
      raw.ingredients = some (es₁ ++ e :: es₂) →
      allOk [] es₁ = true →
      e.amount = some av → e.id = some idv →
      truthy (some av) = true → truthy (some idv) = true →
      pyInt av = some n → n ≤ 0 →
      validate raw = .verr invalidAmountMsg) ∧
    (∀ (raw : RawPayload) (es₁ : List RawEntry) (e : RawEntry) (es₂ : List RawEntry),
      fieldsOk raw = true →
      raw.ingredients = some (es₁ ++ e :: es₂) →
      allOk [] es₁ = true →
      truthy e.amount = false →
      validate raw = .verr incompleteMsg) ∧
    (∀ (raw : RawPayload) (es₁ : List RawEntry) (e : RawEntry) (es₂ : List RawEntry)
        (av idv : JVal),
      fieldsOk raw = true →
      raw.ingredients = some (es₁ ++ e :: es₂) →
      allOk [] es₁ = true →
      e.amount = some av → e.id = some idv →
      truthy (some av) = true → truthy (some idv) = true →
      pyInt av = none →
      validate raw = .valueError) := by
  refine ⟨?_, ?_, ?_⟩
  · intro raw es₁ e es₂ av idv n hf hing hok ha hi htam htid hp hn
    rw [validate_eq_check hf, hing, Option.getD_some, checkEntries_append es₁ hok,
      checkEntries_cons_eq ha hi]
    simp [htam, htid, hp, hn]
  · intro raw es₁ e es₂ hf hing hok hfalse
    rw [validate_eq_check hf, hing, Option.getD_some, checkEntries_append es₁ hok,
      checkEntries_cons_incomplete (Or.inl hfalse)]
  · intro raw es₁ e es₂ av idv hf hing hok ha hi htam htid hp
    rw [validate_eq_check hf, hing, Option.getD_some, checkEntries_append es₁ hok,
      checkEntries_cons_eq ha hi]
    simp [htam, htid, hp]

/-- Witness: the amended C4 theorem applied to the concrete submission with
amount -1. -/
theorem invalid_amount_behavior_witness :
    validate rawAmountNeg = .verr invalidAmountMsg :=
  invalid_amount_behavior.1 rawAmountNeg [] ⟨some (.num 1), some (.num (-1))⟩ []
    (.num (-1)) (.num 1) (-1) (by decide) rfl rfl rfl rfl (by decide) (by decide)
    rfl (by decide)

/-- C5 counterexample: the submission contains an entry (the second) that is
missing its `id`, yet validation rejects with `InvalidAmount` from the first
entry — the presence check of rule 2 is not applied to every entry before
the positivity check of rule 3, contradicting the claimed phase order. -/
theorem validation_order_cex :
    validate rawOrder = .verr invalidAmountMsg ∧ invalidAmountMsg ≠ incompleteMsg :=
  ⟨by decide, by decide⟩

/-- C5 amended: the five field-presence checks run first, in the order tags,
ingredients, name, text, cooking_time, each rejecting with its
`MissingField` message; then the ingredient entries are processed one at a
time in submission order, each entry passing through presence
(`IncompleteIngredient`), then positivity (`InvalidAmount`), then the
duplicate check against earlier ids (`DuplicateIngredient`); the first
failing check of the first failing entry wins and later entries are not
examined. -/
theorem validation_order_behavior :
    (∀ raw : RawPayload, truthyList raw.tags = false →
      validate raw = .verr (missingMsg "tags")) ∧
    (∀ raw : RawPayload, truthyList raw.tags = true →
      truthyList raw.ingredients = false →
      validate raw = .verr (missingMsg "ingredients")) ∧
    (∀ raw : RawPayload, truthyList raw.tags = true →
      truthyList raw.ingredients = true → truthyStr raw.name = false →
      validate raw = .verr (missingMsg "name")) ∧
    (∀ raw : RawPayload, truthyList raw.tags = true →
      truthyList raw.ingredients = true → truthyStr raw.name = true →
      truthyStr raw.text = false →
      validate raw = .verr (missingMsg "text")) ∧
    (∀ raw : RawPayload, truthyList raw.tags = true →
      truthyList raw.ingredients = true → truthyStr raw.name = true →
      truthyStr raw.text = true → truthy raw.cooking_time = false →
      validate raw = .verr (missingMsg "cooking_time")) ∧
    (∀ (raw : RawPayload) (es₁ : List RawEntry) (e : RawEntry) (es₂ : List RawEntry),
      fieldsOk raw = true →
      raw.ingredients = some (es₁ ++ e :: es₂) →
      allOk [] es₁ = true →
      (truthy e.amount = false ∨ truthy e.id = false) →
      validate raw = .verr incompleteMsg) ∧
    (∀ (raw : RawPayload) (es₁ : List RawEntry) (e : RawEntry) (es₂ : List RawEntry)
        (av idv : JVal) (n : Int),
      fieldsOk raw = true →
      raw.ingredients = some (es₁ ++ e :: es₂) →
      allOk [] es₁ = true →
      e.amount = some av → e.id = some idv →
      truthy (some av) = true → truthy (some idv) = true →
      pyInt av = some n → n ≤ 0 →
      validate raw = .verr invalidAmountMsg) ∧
    (∀ (raw : RawPayload) (es₁ : List RawEntry) (e : RawEntry) (es₂ : List RawEntry)
        (av idv : JVal) (n : Int),
      fieldsOk raw = true →
      raw.ingredients = some (es₁ ++ e :: es₂) →
      allOk [] es₁ = true →
      e.amount = some av → e.id = some idv →
      truthy (some av) = true → truthy (some idv) = true →
      pyInt av = some n → 0 < n →
      idv ∈ es₁.foldl seenPush [] →
      validate raw = .verr duplicateMsg) := by
  refine ⟨?_, ?_, ?_, ?_, ?_, ?_, ?_, ?_⟩
  · intro raw h
    simp [validate, h]
  · intro raw h1 h2
    simp [validate, h1, h2]
  · intro raw h1 h2 h3
    simp [validate, h1, h2, h3]
  · intro raw h1 h2 h3 h4
    simp [validate, h1, h2, h3, h4]
  · intro raw h1 h2 h3 h4 h5
    simp [validate, h1, h2, h3, h4, h5]
  · intro raw es₁ e es₂ hf hing hok hfalse
    rw [validate_eq_check hf, hing, Option.getD_some, checkEntries_append es₁ hok,
      checkEntries_cons_incomplete hfalse]
  · intro raw es₁ e es₂ av idv n hf hing hok ha hi htam htid hp hn
    rw [validate_eq_check hf, hing, Option.getD_some, checkEntries_append es₁ hok,
      checkEntries_cons_eq ha hi]
    simp [htam, htid, hp, hn]
  · intro raw es₁ e es₂ av idv n hf hing hok ha hi htam htid hp hn hdup
    rw [validate_eq_check hf, hing, Option.getD_some, checkEntries_append es₁ hok,
      checkEntries_cons_eq ha hi]
    have hn' : ¬ n ≤ 0 := by omega
    simp [htam, htid, hp, hn', hdup]

/-- Witness: the amended C5 theorem applied to a concrete submission whose
second entry is missing its id after a valid first entry. -/
theorem validation_order_behavior_witness :
    validate rawOrderTail = .verr incompleteMsg :=
  (validation_order_behavior).2.2.2.2.2.1 rawOrderTail
    [⟨some (.num 1), some (.num 2)⟩] ⟨none, some (.num 2)⟩ []
    (by decide) rfl (by decide) (Or.inr rfl)

/-- C6 counterexample: a submission in which ingredient id 1 occurs twice is
rejected with `InvalidAmount` (the first entry's amount -1 fails first), not
with `DuplicateIngredient` as the claim demands for every duplicate
submission. -/
theorem duplicate_ingredient_cex :
    ¬ ((rawDupNeg.ingredients.getD []).filterMap RawEntry.id).Nodup ∧
    validate rawDupNeg = .verr invalidAmountMsg ∧ invalidAmountMsg ≠ duplicateMsg :=
  ⟨by decide, by decide, by decide⟩

/-- C6 amended: a submission with a repeated ingredient id never validates
successfully — duplicates are never silently summed or overwritten — and
whenever every entry passes the presence and positivity checks, the
rejection is exactly `DuplicateIngredient`; in particular the
specification's example `[id 1 amount 2, id 1 amount 3]` rejects with
`DuplicateIngredient`. -/
theorem duplicate_ingredient_behavior :
    (∀ (raw : RawPayload) (es : List RawEntry),
      raw.ingredients = some es →
      ¬ (es.filterMap RawEntry.id).Nodup →
      validate raw ≠ .ok) ∧
    (∀ (raw : RawPayload) (es : List RawEntry),
      raw.ingredients = some es →
      fieldsOk raw = true →
      (∀ e ∈ es, entryWF e = true) →
      ¬ (es.filterMap RawEntry.id).Nodup →
      validate raw = .verr duplicateMsg) ∧
    validate rawDupExample = .verr duplicateMsg := by
  refine ⟨?_, ?_, by decide⟩
  · intro raw es hing hdup hok
    rcases validate_ok_spec hok with ⟨_, hchk⟩
    rw [hing, Option.getD_some] at hchk
    exact hdup (checkEntries_ok_nodup es [] hchk).1
  · intro raw es hing hf hwf hdup
    rcases checkEntries_wf_ok_or_dup es [] hwf with hok | hdupmsg
    · exact absurd (checkEntries_ok_nodup es [] hok).1 hdup
    · rw [validate_eq_check hf, hing, Option.getD_some, hdupmsg]

/-- Witness: the amended C6 theorem applied to the specification's concrete
duplicate submission. -/
theorem duplicate_ingredient_behavior_witness :
    validate rawDupExample = .verr duplicateMsg :=
  duplicate_ingredient_behavior.2.1 rawDupExample
    [⟨some (.num 1), some (.num 2)⟩, ⟨some (.num 1), some (.num 3)⟩]
    rfl (by decide) (by decide) (by decide)

/-! ## Lemmas: recipe persistence -/

theorem resolveIngredients_some :
    ∀ (catalog : List Ingredient) (l rs : List (Nat × Int)),
      resolveIngredients catalog l = some rs → rs = l := by
  intro catalog l
  induction l with
  | nil =>
    intro rs h
    rw [resolveIngredients] at h
    exact (Option.some.inj h).symm
  | cons p rest ih =>
    intro rs h
    obtain ⟨i, a⟩ := p
    rw [resolveIngredients] at h
    cases hf : catalog.find? fun ing => ing.id == i with
    | none => rw [hf] at h; simp at h
    | some ing =>
      rw [hf] at h
      cases hr : resolveIngredients catalog rest with
      | none => rw [hr] at h; simp at h
      | some rs' =>
        rw [hr] at h
        have h' : (ing.id, a) :: rs' = rs := by simpa using h
        have hid : ing.id = i := by
          have := List.find?_some hf
          simpa using this
        rw [← h', hid, ih rs' hr]

theorem le_foldl_max_init : ∀ (l : List Nat) (a : Nat), a ≤ l.foldl max a := by
  intro l
  induction l with
  | nil => intro a; exact Nat.le_refl a
  | cons b l ih => intro a; exact le_trans (Nat.le_max_left a b) (ih (max a b))

theorem le_foldl_max_mem : ∀ (l : List Nat) (a x : Nat), x ∈ l → x ≤ l.foldl max a := by
  intro l
  induction l with
  | nil => intro a x h; simp at h
  | cons b l ih =>
    intro a x h
    rcases List.mem_cons.mp h with rfl | h'
    · exact le_trans (Nat.le_max_right a x) (le_foldl_max_init l (max a x))
    · exact ih (max a b) x h'

theorem freshRecipeId_not_mem (s : State) : freshRecipeId s ∉ s.recipes.map (·.id) := by
  intro hmem
  have h := le_foldl_max_mem (s.recipes.map (·.id)) 0 _ hmem
  rw [freshRecipeId] at h
  omega

theorem pairs_read_back (rid : Nat) (rs : List (Nat × Int))
    (pre : List RecipeIngredientRow) (hpre : ∀ ri ∈ pre, ri.recipe ≠ rid) :
    (((pre ++ rs.map fun pr => (⟨rid, pr.1, pr.2⟩ : RecipeIngredientRow)).filter
      fun ri => ri.recipe == rid).map fun ri => (ri.ingredient, ri.amount)) = rs := by
  rw [List.filter_append]
  have hnil : pre.filter (fun ri => ri.recipe == rid) = [] := by
    rw [List.filter_eq_nil_iff]
    intro ri hri
    simp [hpre ri hri]
  rw [hnil, List.nil_append]
  induction rs with
  | nil => rfl
  | cons pr rest ih => simp [ih]

theorem tags_read_back (rid : Nat) (ts : List Nat)
    (pre : List (Nat × Nat)) (hpre : ∀ t ∈ pre, t.1 ≠ rid) :
    (((pre ++ ts.map fun t => (rid, t)).filter fun t => t.1 == rid).map (·.2)) = ts := by
  rw [List.filter_append]
  have hnil : pre.filter (fun t => t.1 == rid) = [] := by
    rw [List.filter_eq_nil_iff]
    intro t ht
    simp [hpre t ht]
  rw [hnil, List.nil_append]
  induction ts with
  | nil => rfl
  | cons t rest ih => simp [ih]

theorem create_cases (s : State) (author : Nat) (p : Payload) :
    create s author p = (.err .duplicateRecipe, s) ∨
    (resolveIngredients s.ingredients p.ingredients = none ∧
      create s author p = (.err .unknownIngredient, createHeaderState s author p)) ∨
    (∃ rs, resolveIngredients s.ingredients p.ingredients = some rs ∧
      create s author p = (.ok (freshRecipeId s),
        { createHeaderState s author p with
          recipeIngredients := (createHeaderState s author p).recipeIngredients ++
            rs.map fun pr => ⟨freshRecipeId s, pr.1, pr.2⟩ })) := by
  rw [create]
  by_cases hd : (s.recipes.any fun r => r.author == author && r.name == p.name) = true
  · rw [if_pos hd]
    left
    rfl
  · rw [if_neg hd]
    cases hres : resolveIngredients s.ingredients p.ingredients with
    | none => right; left; exact ⟨rfl, rfl⟩
    | some rs => right; right; exact ⟨rs, rfl, rfl⟩

theorem update_cases (s : State) (rid : Nat) (p : Payload) :
    update s rid p = (.err .recipeMissing, s) ∨
    update s rid p = (.err .duplicateRecipe, clearedState s rid) ∨
    (resolveIngredients s.ingredients p.ingredients = none ∧
      update s rid p = (.err .unknownIngredient, updateHeaderState s rid p)) ∨
    (∃ rs, resolveIngredients s.ingredients p.ingredients = some rs ∧
      update s rid p = (.ok rid,
        { updateHeaderState s rid p with
          recipeIngredients := (updateHeaderState s rid p).recipeIngredients ++
            rs.map fun pr => ⟨rid, pr.1, pr.2⟩ })) := by
  cases hf : s.recipes.find? fun r => r.id == rid with
  | none =>
    left
    rw [update, hf]
  | some r0 =>
    have hstep : update s rid p =
        (if (s.recipes.any fun r =>
            r.id != rid && r.author == r0.author && r.name == p.name) = true then
          ((.err .duplicateRecipe, clearedState s rid) : CreateResult × State)
        else
          match resolveIngredients s.ingredients p.ingredients with
          | none => (.err .unknownIngredient, updateHeaderState s rid p)
          | some rs =>
            (.ok rid,
              { updateHeaderState s rid p with
                recipeIngredients := (updateHeaderState s rid p).recipeIngredients ++
                  rs.map fun pr => ⟨rid, pr.1, pr.2⟩ })) := by
      rw [update, hf]
    by_cases hd : (s.recipes.any fun r =>
        r.id != rid && r.author == r0.author && r.name == p.name) = true
    · right; left
      rw [hstep, if_pos hd]
    · rw [hstep, if_neg hd]
      cases hres : resolveIngredients s.ingredients p.ingredients with
      | none => right; right; left; exact ⟨rfl, rfl⟩
      | some rs => right; right; right; exact ⟨rs, rfl, rfl⟩

theorem create_ok_spec {s : State} {author : Nat} {p : Payload} {rid : Nat} {s' : State}
    (h : create s author p = (.ok rid, s')) :
    rid = freshRecipeId s ∧
    ∃ rs, resolveIngredients s.ingredients p.ingredients = some rs ∧
      s' = { createHeaderState s author p with
        recipeIngredients := (createHeaderState s author p).recipeIngredients ++
          rs.map fun pr => ⟨freshRecipeId s, pr.1, pr.2⟩ } := by
  rcases create_cases s author p with hc | ⟨_, hc⟩ | ⟨rs, hres, hc⟩
  · rw [hc] at h
    injection h with h1 h2
    simp at h1
  · rw [hc] at h
    injection h with h1 h2
    simp at h1
  · rw [hc] at h
    injection h with h1 h2
    injection h1 with h1
    exact ⟨h1.symm, rs, hres, h2.symm⟩

theorem update_ok_spec {s : State} {rid : Nat} {p : Payload} {rid' : Nat} {s' : State}
    (h : update s rid p = (.ok rid', s')) :
    rid' = rid ∧
    ∃ rs, resolveIngredients s.ingredients p.ingredients = some rs ∧
      s' = { updateHeaderState s rid p with
        recipeIngredients := (updateHeaderState s rid p).recipeIngredients ++
          rs.map fun pr => ⟨rid, pr.1, pr.2⟩ } := by
  rcases update_cases s rid p with hc | hc | ⟨_, hc⟩ | ⟨rs, hres, hc⟩
  · rw [hc] at h
    injection h with h1 h2
    simp at h1
  · rw [hc] at h
    injection h with h1 h2
    simp at h1
  · rw [hc] at h
    injection h with h1 h2
    simp at h1
  · rw [hc] at h
    injection h with h1 h2
    injection h1 with h1
    exact ⟨h1.symm, rs, hres, h2.symm⟩

theorem create_ok_state {s : State} {author : Nat} {p : Payload} {rid : Nat} {s' : State}
    (h : create s author p = (.ok rid, s')) :
    rid = freshRecipeId s ∧
    s'.recipes = s.recipes ++
      [⟨freshRecipeId s, author, p.name, p.text, p.cooking_time⟩] ∧
    readTags s' (freshRecipeId s) = p.tags ∧
    ((∀ ri ∈ s.recipeIngredients, ri.recipe ∈ s.recipes.map (·.id)) →
      readPairs s' (freshRecipeId s) = p.ingredients) := by
  obtain ⟨rfl, rs, hres, rfl⟩ := create_ok_spec h
  refine ⟨rfl, rfl, ?_, ?_⟩
  · show (((s.recipeTags.filter fun t => t.1 ≠ freshRecipeId s) ++
        p.tags.map fun t => (freshRecipeId s, t)).filter
          fun t => t.1 == freshRecipeId s).map (·.2) = p.tags
    exact tags_read_back _ _ _
      (fun t ht => of_decide_eq_true (List.mem_filter.mp ht).2)
  · intro hwf
    show ((s.recipeIngredients ++
        rs.map fun pr => (⟨freshRecipeId s, pr.1, pr.2⟩ : RecipeIngredientRow)).filter
          fun ri => ri.recipe == freshRecipeId s).map
            (fun ri => (ri.ingredient, ri.amount)) = p.ingredients
    rw [pairs_read_back _ _ _
      (fun ri hri c => freshRecipeId_not_mem s (by rw [← c]; exact hwf ri hri))]
    exact resolveIngredients_some _ _ _ hres

theorem update_ok_state {s : State} {rid : Nat} {p : Payload} {rid' : Nat} {s' : State}
    (h : update s rid p = (.ok rid', s')) :
    rid' = rid ∧ readTags s' rid = p.tags ∧ readPairs s' rid = p.ingredients := by
  obtain ⟨rfl, rs, hres, rfl⟩ := update_ok_spec h
  refine ⟨rfl, ?_, ?_⟩
  · show (((s.recipeTags.filter fun t => t.1 ≠ rid') ++
        p.tags.map fun t => (rid', t)).filter fun t => t.1 == rid').map (·.2) = p.tags
    exact tags_read_back _ _ _
      (fun t ht => of_decide_eq_true (List.mem_filter.mp ht).2)
  · show (((s.recipeIngredients.filter fun ri => ri.recipe ≠ rid') ++
        rs.map fun pr => (⟨rid', pr.1, pr.2⟩ : RecipeIngredientRow)).filter
          fun ri => ri.recipe == rid').map
            (fun ri => (ri.ingredient, ri.amount)) = p.ingredients
    rw [pairs_read_back _ _ _
      (fun ri hri => of_decide_eq_true (List.mem_filter.mp hri).2)]
    exact resolveIngredients_some _ _ _ hres

theorem create_unknown_state {s : State} {author : Nat} {p : Payload} {s' : State}
    (h : create s author p = (.err .unknownIngredient, s')) :
    s'.recipes = s.recipes ++
      [⟨freshRecipeId s, author, p.name, p.text, p.cooking_time⟩] ∧
    readTags s' (freshRecipeId s) = p.tags ∧
    s'.recipeIngredients = s.recipeIngredients := by
  rcases create_cases s author p with hc | ⟨_, hc⟩ | ⟨rs, hres, hc⟩
  · rw [hc] at h
    injection h with h1 h2
    simp at h1
  · rw [hc] at h
    injection h with h1 h2
    rw [← h2]
    refine ⟨rfl, ?_, rfl⟩
    show (((s.recipeTags.filter fun t => t.1 ≠ freshRecipeId s) ++
        p.tags.map fun t => (freshRecipeId s, t)).filter
          fun t => t.1 == freshRecipeId s).map (·.2) = p.tags
    exact tags_read_back _ _ _
      (fun t ht => of_decide_eq_true (List.mem_filter.mp ht).2)
  · rw [hc] at h
    injection h with h1 h2
    simp at h1

theorem update_unknown_state {s : State} {rid : Nat} {p : Payload} {s' : State}
    (h : update s rid p = (.err .unknownIngredient, s')) :
    s'.recipeIngredients = s.recipeIngredients.filter fun ri => ri.recipe ≠ rid := by
  rcases update_cases s rid p with hc | hc | ⟨_, hc⟩ | ⟨rs, hres, hc⟩
  · rw [hc] at h
    injection h with h1 h2
    simp at h1
  · rw [hc] at h
    injection h with h1 h2
    simp at h1
  · rw [hc] at h
    injection h with h1 h2
    rw [← h2]
    rfl
  · rw [hc] at h
    injection h with h1 h2
    simp at h1

theorem create_duplicate_state {s : State} {author : Nat} {p : Payload} {s' : State}
    (h : create s author p = (.err .duplicateRecipe, s')) : s' = s := by
  rcases create_cases s author p with hc | ⟨_, hc⟩ | ⟨rs, hres, hc⟩
  · rw [hc] at h
    injection h with h1 h2
    exact h2.symm
  · rw [hc] at h
    injection h with h1 h2
    simp at h1
  · rw [hc] at h
    injection h with h1 h2
    simp at h1

/-! ## Claim theorems: recipe persistence (C2, C3) -/

/-- C2 counterexample: a create whose ingredient id is unknown fails with
`UnknownIngredient`, yet the state is not as before the call — the recipe
row (and its tag association) is already persisted, with no ingredient
rows.  There is no transaction around the serializer's writes. -/
theorem atomicity_cex :
    (create stateC2 1 payloadUnknown).1 = .err .unknownIngredient ∧
    (create stateC2 1 payloadUnknown).2 ≠ stateC2 ∧
    (create stateC2 1 payloadUnknown).2.recipes = [⟨1, 1, "x", "y", 3⟩] ∧
    (create stateC2 1 payloadUnknown).2.recipeIngredients = [] :=
  ⟨by decide, by decide, by decide, by decide⟩

/-- C2 amended: validation failures happen before any write and leave the
state unchanged, a successful create persists all rows (recipe, tags,
ingredient associations), and a `(author, name)` uniqueness violation on
insert leaves the state unchanged; but the write phase is not atomic — an
`UnknownIngredient` failure leaves the recipe row and its tag associations
persisted with no ingredient rows on create, and leaves the prior
ingredient associations already cleared (and none recreated) on update. -/
theorem atomicity_behavior :
    (∀ (s : State) (u : Nat) (raw : RawPayload),
      validate raw ≠ .ok → (perform_create s u raw).2 = s) ∧
    (∀ (s : State) (author : Nat) (p : Payload) (rid : Nat) (s' : State),
      create s author p = (.ok rid, s') →
      s'.recipes = s.recipes ++
        [⟨freshRecipeId s, author, p.name, p.text, p.cooking_time⟩] ∧
      readTags s' (freshRecipeId s) = p.tags ∧
      ((∀ ri ∈ s.recipeIngredients, ri.recipe ∈ s.recipes.map (·.id)) →
        readPairs s' (freshRecipeId s) = p.ingredients)) ∧
    (∀ (s : State) (author : Nat) (p : Payload) (s' : State),
      create s author p = (.err .unknownIngredient, s') →
      s'.recipes = s.recipes ++
        [⟨freshRecipeId s, author, p.name, p.text, p.cooking_time⟩] ∧
      readTags s' (freshRecipeId s) = p.tags ∧
      s'.recipeIngredients = s.recipeIngredients) ∧
    (∀ (s : State) (rid : Nat) (p : Payload) (s' : State),
      update s rid p = (.err .unknownIngredient, s') →
      s'.recipeIngredients = s.recipeIngredients.filter fun ri => ri.recipe ≠ rid) ∧
    (∀ (s : State) (author : Nat) (p : Payload) (s' : State),
      create s author p = (.err .duplicateRecipe, s') → s' = s) := by
  refine ⟨?_, ?_, ?_, ?_, ?_⟩
  · intro s u raw hval
    cases hv : validate raw with
    | ok => exact absurd hv hval
    | verr m => rw [perform_create, hv]
    | valueError => rw [perform_create, hv]
  · intro s author p rid s' h
    exact (create_ok_state h).2
  · intro s author p s' h
    exact create_unknown_state h
  · intro s rid p s' h
    exact update_unknown_state h
  · intro s author p s' h
    exact create_duplicate_state h

/-- Witness: the amended C2 theorem applied to a rejected submission (amount
0) at the empty database, and to the concrete unknown-ingredient create. -/
theorem atomicity_behavior_witness :
    (perform_create initState 1 rawAmountZero).2 = initState ∧
    (create stateC2 1 payloadUnknown).2.recipeIngredients =
      stateC2.recipeIngredients :=
  ⟨atomicity_behavior.1 initState 1 rawAmountZero (by decide),
    (atomicity_behavior.2.2.1 stateC2 1 payloadUnknown
      (create stateC2 1 payloadUnknown).2 (by decide)).2.2⟩

/-- C3: after a successful create the recipe's readable ingredient
association set equals the submitted `(ingredient id, amount)` set (as sets,
hence independently of submission order), after a successful update it
equals the newly submitted set with no old association (ingredient or tag)
surviving, and concretely create with `A:2` followed by update with `B:3`
reads back exactly `B:3`. -/
theorem create_update_read_back :
    (∀ (s : State) (author : Nat) (p : Payload) (rid : Nat) (s' : State),
      (∀ ri ∈ s.recipeIngredients, ri.recipe ∈ s.recipes.map (·.id)) →
      create s author p = (.ok rid, s') →
      readPairs s' rid = p.ingredients ∧ readTags s' rid = p.tags ∧
      (∀ pr : Nat × Int, pr ∈ readPairs s' rid ↔ pr ∈ p.ingredients)) ∧
    (∀ (s : State) (rid : Nat) (p : Payload) (rid' : Nat) (s' : State),
      update s rid p = (.ok rid', s') →
      readPairs s' rid = p.ingredients ∧ readTags s' rid = p.tags ∧
      (∀ pr : Nat × Int, pr ∈ readPairs s' rid ↔ pr ∈ p.ingredients)) ∧
    ((create stateC3 1 payloadA).1 = .ok 1 ∧
      readPairs (create stateC3 1 payloadA).2 1 = [(1, 2)] ∧
      (update (create stateC3 1 payloadA).2 1 payloadB).1 = .ok 1 ∧
      readPairs (update (create stateC3 1 payloadA).2 1 payloadB).2 1 = [(2, 3)]) := by
  refine ⟨?_, ?_, by decide, by decide, by decide, by decide⟩
  · intro s author p rid s' hwf h
    obtain ⟨hrid, _, htags, hpairs⟩ := create_ok_state h
    subst hrid
    refine ⟨hpairs hwf, htags, ?_⟩
    intro pr
    rw [hpairs hwf]
  · intro s rid p rid' s' h
    obtain ⟨hrid, htags, hpairs⟩ := update_ok_state h
    refine ⟨hpairs, htags, ?_⟩
    intro pr
    rw [hpairs]

/-- Witness: the C3 theorem applied to the concrete create of payload
`A:2`. -/
theorem create_update_read_back_witness :
    readPairs (create stateC3 1 payloadA).2 1 = payloadA.ingredients :=
  (create_update_read_back.1 stateC3 1 payloadA 1 (create stateC3 1 payloadA).2
    (by decide) (by decide)).1

/-! ## Lemmas: which operations touch the subscription table -/

theorem create_subscriptions (s : State) (author : Nat) (p : Payload) :
    (create s author p).2.subscriptions = s.subscriptions := by
  rcases create_cases s author p with hc | ⟨_, hc⟩ | ⟨rs, _, hc⟩ <;>
    (rw [hc]; try rfl)

theorem update_subscriptions (s : State) (rid : Nat) (p : Payload) :
    (update s rid p).2.subscriptions = s.subscriptions := by
  rcases update_cases s rid p with hc | hc | ⟨_, hc⟩ | ⟨rs, _, hc⟩ <;>
    (rw [hc]; try rfl)

theorem perform_create_subscriptions (s : State) (u : Nat) (raw : RawPayload) :
    (perform_create s u raw).2.subscriptions = s.subscriptions := by
  cases hv : validate raw with
  | verr m => rw [perform_create, hv]
  | valueError => rw [perform_create, hv]
  | ok =>
    have hsub := create_subscriptions s u (toPayload raw)
    rw [perform_create, hv]
    cases hc : create s u (toPayload raw) with
    | mk res s' =>
      rw [hc] at hsub
      cases res <;> exact hsub

theorem cru_subscriptions (s : State) (u rid : Nat) (k : JoinKind) :
    (create_recipe_user s u rid k).2.subscriptions = s.subscriptions := by
  rw [create_recipe_user]
  split
  · rfl
  · split
    · rfl
    · cases k <;> rfl

theorem dru_subscriptions (s : State) (u rid : Nat) (k : JoinKind) :
    (delete_recipe_user s u rid k).2.subscriptions = s.subscriptions := by
  rw [delete_recipe_user]
  split
  · rfl
  · split
    · cases k <;> rfl
    · rfl

theorem subscribe_post_subscriptions (s : State) (u pk : Nat) :
    (subscribe_post s u pk).2.subscriptions = s.subscriptions ∨
    (pk ≠ u ∧
      (subscribe_post s u pk).2.subscriptions = s.subscriptions ++ [(u, pk)]) := by
  rw [subscribe_post]
  split
  · left; rfl
  · split
    · left; rfl
    · split
      · left; rfl
      next h =>
        right
        exact ⟨fun c => h (by simp [c]), rfl⟩

theorem subscribe_delete_subscriptions {s : State} {u pk : Nat} {x : Nat × Nat}
    (h : x ∈ (subscribe_delete s u pk).2.subscriptions) : x ∈ s.subscriptions := by
  rw [subscribe_delete] at h
  split at h
  · exact h
  · split at h
    · exact List.mem_of_mem_erase h
    · exact h

/-- One step preserves the absence of self-subscription rows. -/
theorem step_preserves_ne {s s' : State} (hstep : Step s s')
    (ih : ∀ pq ∈ s.subscriptions, pq.1 ≠ pq.2) :
    ∀ pq ∈ s'.subscriptions, pq.1 ≠ pq.2 := by
  intro pq hm
  cases hstep with
  | register u' hu' => exact ih pq hm
  | addIngredient i => exact ih pq hm
  | addTag t => exact ih pq hm
  | createRecipe u' raw hu' =>
    rw [perform_create_subscriptions] at hm
    exact ih pq hm
  | updateRecipe rid p =>
    rw [update_subscriptions] at hm
    exact ih pq hm
  | favAdd u' rid k hu' =>
    rw [cru_subscriptions] at hm
    exact ih pq hm
  | favDel u' rid k hu' =>
    rw [dru_subscriptions] at hm
    exact ih pq hm
  | subAdd u' pk hu' =>
    rcases subscribe_post_subscriptions s u' pk with h | ⟨hne, h⟩
    · rw [h] at hm
      exact ih pq hm
    · rw [h] at hm
      rcases List.mem_append.mp hm with hm' | hm'
      · exact ih pq hm'
      · rw [List.mem_singleton] at hm'
        subst hm'
        exact fun c => hne c.symm
  | subDel u' pk hu' => exact ih pq (subscribe_delete_subscriptions hm)
  | download u' hu' => exact ih pq hm

/-- No reachable state holds a self-subscription row. -/
theorem reachable_subscription_ne : ∀ {s : State}, Reachable s →
    ∀ pq ∈ s.subscriptions, pq.1 ≠ pq.2 := by
  intro s hr
  induction hr with
  | init => intro pq hm; simp [initState] at hm
  | step hprev hstep ih => exact step_preserves_ne hstep ih

/-! ## Claim theorems: toggles (C8, C9) -/

/-- C8 counterexample: a Subscription add for an absent `(user, target)`
pair — user 1 subscribing to themselves — creates no join row and is
rejected (with the self-subscription message), contradicting the claim that
every add on an absent pair creates exactly one join row. -/
theorem toggle_two_state_cex :
    (1, 1) ∉ stateC8.subscriptions ∧
    (subscribe_post stateC8 1 1).2.subscriptions = [] ∧
    (subscribe_post stateC8 1 1).1 =
      .badRequest "Вы не можете подписаться на самого себя." :=
  ⟨by decide, by decide, by decide⟩

/-- C8 amended: Favorite and ShoppingCart behave as the two-state machine
describes (with remove-when-absent answering 404); Subscription behaves the
same except that an add with author equal to the acting user rejects with
the self-subscription message and changes nothing, and a remove when the
pair is absent rejects with a 400 already-deleted message rather than
NotFound. -/
theorem toggle_two_state_behavior :
    (∀ (s : State) (u rid : Nat) (k : JoinKind),
      (s.recipes.any fun r => r.id == rid) = true →
      (u, rid) ∈ joinTable s k →
      create_recipe_user s u rid k =
        (.badRequest ("Уже есть рецепт с id = " ++ toString rid ++ "."), s)) ∧
    (∀ (s : State) (u rid : Nat) (k : JoinKind),
      (s.recipes.any fun r => r.id == rid) = true →
      (u, rid) ∉ joinTable s k →
      create_recipe_user s u rid k =
        (.created, setJoinTable s k (joinTable s k ++ [(u, rid)]))) ∧
    (∀ (s : State) (u rid : Nat) (k : JoinKind),
      (s.recipes.any fun r => r.id == rid) = true →
      (u, rid) ∉ joinTable s k →
      delete_recipe_user s u rid k = (.notFound, s)) ∧
    (∀ (s : State) (u rid : Nat) (k : JoinKind),
      (s.recipes.any fun r => r.id == rid) = true →
      (u, rid) ∈ joinTable s k →
      delete_recipe_user s u rid k =
        (.noContent, setJoinTable s k ((joinTable s k).erase (u, rid)))) ∧
    (∀ (s : State) (u pk : Nat),
      s.users.contains pk = true →
      (u, pk) ∈ s.subscriptions →
      subscribe_post s u pk = (.badRequest "Вы уже подписаны на этого автора.", s)) ∧
    (∀ (s : State) (u pk : Nat),
      s.users.contains pk = true →
      (u, pk) ∉ s.subscriptions →
      pk ≠ u →
      subscribe_post s u pk =
        (.created, { s with subscriptions := s.subscriptions ++ [(u, pk)] })) ∧
    (∀ (s : State) (u pk : Nat),
      s.users.contains pk = true →
      (u, pk) ∉ s.subscriptions →
      pk = u →
      subscribe_post s u pk =
        (.badRequest "Вы не можете подписаться на самого себя.", s)) ∧
    (∀ (s : State) (u pk : Nat),
      s.users.contains pk = true →
      (u, pk) ∉ s.subscriptions →
      subscribe_delete s u pk = (.badRequest "Подписка уже удалена.", s)) ∧
    (∀ (s : State) (u pk : Nat),
      s.users.contains pk = true →
      (u, pk) ∈ s.subscriptions →
      subscribe_delete s u pk =
        (.noContent, { s with subscriptions := s.subscriptions.erase (u, pk) })) := by
  refine ⟨?_, ?_, ?_, ?_, ?_, ?_, ?_, ?_, ?_⟩
  · intro s u rid k hrec hmem
    rw [create_recipe_user]
    simp [hrec, hmem]
  · intro s u rid k hrec hmem
    rw [create_recipe_user]
    simp [hrec, hmem]
  · intro s u rid k hrec hmem
    rw [delete_recipe_user]
    simp [hrec, hmem]
  · intro s u rid k hrec hmem
    rw [delete_recipe_user]
    simp [hrec, hmem]
  · intro s u pk husers hmem
    have hpk : pk ∈ s.users := by simpa using husers
    rw [subscribe_post]
    simp [hpk, hmem]
  · intro s u pk husers hmem hne
    have hpk : pk ∈ s.users := by simpa using husers
    rw [subscribe_post]
    simp [hpk, hmem, hne]
  · intro s u pk husers hmem heq
    subst heq
    have hpk : pk ∈ s.users := by simpa using husers
    rw [subscribe_post]
    simp [hpk, hmem]
  · intro s u pk husers hmem
    have hpk : pk ∈ s.users := by simpa using husers
    rw [subscribe_delete]
    simp [hpk, hmem]
  · intro s u pk husers hmem
    have hpk : pk ∈ s.users := by simpa using husers
    rw [subscribe_delete]
    simp [hpk, hmem]

/-- Witness: the amended C8 theorem applied concretely — a favorite add on
an absent pair creates the row, and a second add rejects. -/
theorem toggle_two_state_behavior_witness :
    create_recipe_user stateC8fav 1 1 .favorite =
      (.created, setJoinTable stateC8fav .favorite
        (joinTable stateC8fav .favorite ++ [(1, 1)])) ∧
    subscribe_delete stateC8fav 1 2 = (.badRequest "Подписка уже удалена.", stateC8fav) :=
  ⟨toggle_two_state_behavior.2.1 stateC8fav 1 1 .favorite (by decide) (by decide),
    toggle_two_state_behavior.2.2.2.2.2.2.2.1 stateC8fav 1 2 (by decide) (by decide)⟩

/-- C9: in every reachable state, a subscription add by an existing user on
themselves rejects with the self-subscription message and changes nothing,
and no reachable state contains a subscription row with user equal to
author. -/
theorem self_subscription_impossible :
    (∀ s : State, Reachable s → ∀ u : Nat, u ∈ s.users →
      subscribe_post s u u =
        (.badRequest "Вы не можете подписаться на самого себя.", s)) ∧
    (∀ s : State, Reachable s → ∀ u : Nat, (u, u) ∉ s.subscriptions) := by
  constructor
  · intro s hr u hu
    have hns : (u, u) ∉ s.subscriptions := fun c =>
      (reachable_subscription_ne hr (u, u) c) rfl
    rw [subscribe_post]
    simp [hu, hns]
  · intro s hr u c
    exact (reachable_subscription_ne hr (u, u) c) rfl

/-- A register step reaches the one-user state. -/
theorem stateC8_reachable : Reachable stateC8 :=
  Reachable.step Reachable.init (Step.register initState 1 (by decide))

/-- Witness: the C9 theorem applied to the reachable one-user state. -/
theorem self_subscription_impossible_witness :
    subscribe_post stateC8 1 1 =
      (.badRequest "Вы не можете подписаться на самого себя.", stateC8) ∧
    (1, 1) ∉ stateC8.subscriptions :=
  ⟨self_subscription_impossible.1 stateC8 stateC8_reachable 1 (by decide),
    self_subscription_impossible.2 stateC8 stateC8_reachable 1⟩

end Foodgram
